import Mathlib

/-!
# Verification of the flow-chat Flow-to-C++ translator (src/server.js)

Shallow embedding of the translation engine in src/server.js:
the line-dispatch translator (translateFlowToCpp), the word-level
expression/condition rewriters (translateExpr, translateCond), the
block reconciler (closeBlocks), the bounded history ledger (logIdea)
and the sandboxed compile-and-run harness (compileAndRun).

JavaScript regular expressions are embedded as explicit character-list
scanners.  A word character is [A-Za-z0-9_] (JS \w without the u flag);
whitespace is modelled by the ASCII whitespace characters matched by
JS \s.  Global replacement of a word-bounded keyword (e.g.
replace(/\byes\b/g, "true")) is realised as: every maximal run of word
characters equal to the keyword is replaced, all other characters are
kept — which is exactly the set of matches of such a pattern, since
word-boundary assertions make matches coincide with whole maximal word
runs.  Scanners recurse on shrinking suffixes; to keep every
definition computable by the kernel they take an explicit fuel
argument that the wrapper instantiates with the input length, together
with a congruence lemma showing any sufficient fuel gives the same
result.
-/

set_option linter.unusedVariables false
set_option maxRecDepth 8000

namespace FlowChat

/-- JS regex word character class \w = [A-Za-z0-9_]. -/
def isWordChar (c : Char) : Bool :=
  ('a' ≤ c && c ≤ 'z') || ('A' ≤ c && c ≤ 'Z') || ('0' ≤ c && c ≤ '9') || c == '_'

/-- JS regex whitespace class \s (ASCII part): space, tab, LF, VT, FF, CR. -/
def isWsChar (c : Char) : Bool :=
  c == ' ' || c == '\t' || c == '\n' || c == '\x0b' || c == '\x0c' || c == '\r'

/-- JS regex digit class \d = [0-9]. -/
def isDigitChar (c : Char) : Bool :=
  '0' ≤ c && c ≤ '9'

/-- Number of occurrences of a character in a string
(JS (l.match(/c/g) || []).length). -/
def countChar (c : Char) (s : String) : Nat :=
  (s.data.filter (fun d => d == c)).length

/-- The opening block delimiter character. -/
def openBrace : Char := '\x7b'

/-- The closing block delimiter character. -/
def closeBrace : Char := '\x7d'

/-- Net block-delimiter contribution of one emitted line:
count of opening braces minus count of closing braces. -/
def lineNet (l : String) : Int :=
  (countChar openBrace l : Int) - (countChar closeBrace l : Int)

/-- Cumulative open-minus-close depth of a list of lines
(the depth accumulated by the loop in closeBlocks, src/server.js 286-295). -/
def linesNet (lines : List String) : Int :=
  lines.foldl (fun d l => d + lineNet l) 0

/-- src/server.js 286-298: scan the lines counting cumulative
open-minus-close depth, keep every line, and append one four-space
indented closing brace line while the final depth is positive. -/
def closeBlocks (lines : List String) : List String :=
  lines ++ List.replicate (linesNet lines).toNat "    \x7d"

/-! ## Word-level rewriters (src/server.js 265-284)

Each .replace call is embedded as a fuelled scanner over the character
list; the fuel is the input length, which bounds the number of
recursive steps (each step consumes at least one character). -/

/-- True when the list starts with a whitespace character. -/
def headIsWs (l : List Char) : Bool :=
  match l with
  | c :: _ => isWsChar c
  | [] => false

/-- Scanner for expr.replace(/\bKW\b/g, rep): every maximal run of word
characters equal to kw is replaced by rep; all other text is copied. -/
def substWordF (kw rep : List Char) : Nat → List Char → List Char
  | _, [] => []
  | 0, l => l
  | fuel + 1, c :: cs =>
    if isWordChar c then
      (if c :: cs.takeWhile isWordChar = kw then rep
       else c :: cs.takeWhile isWordChar)
        ++ substWordF kw rep fuel (cs.dropWhile isWordChar)
    else c :: substWordF kw rep fuel cs

/-- Global word-bounded keyword replacement (wrapper fixing the fuel). -/
def substWord (kw rep : List Char) (l : List Char) : List Char :=
  substWordF kw rep l.length l

/-- Scanner for .replace(/\bnot\s+/g, "!"): a maximal word run equal to
"not" followed by at least one whitespace character is replaced,
together with that whitespace run, by a single '!'. -/
def substNotF : Nat → List Char → List Char
  | _, [] => []
  | 0, l => l
  | fuel + 1, c :: cs =>
    if isWordChar c then
      if c :: cs.takeWhile isWordChar = ['n', 'o', 't'] &&
          headIsWs (cs.dropWhile isWordChar) then
        '!' :: substNotF fuel ((cs.dropWhile isWordChar).dropWhile isWsChar)
      else
        (c :: cs.takeWhile isWordChar) ++ substNotF fuel (cs.dropWhile isWordChar)
    else c :: substNotF fuel cs

/-- .replace(/\bnot\s+/g, "!") (wrapper fixing the fuel). -/
def substNot (l : List Char) : List Char :=
  substNotF l.length l

/-- Scanner for .replace(/\bis\s+not\b/g, "!="): a maximal word run
equal to "is", then at least one whitespace character, then a maximal
word run equal to "not", all replaced by "!=". -/
def substIsNotF : Nat → List Char → List Char
  | _, [] => []
  | 0, l => l
  | fuel + 1, c :: cs =>
    if isWordChar c then
      if c :: cs.takeWhile isWordChar = ['i', 's'] &&
          headIsWs (cs.dropWhile isWordChar) &&
          ((cs.dropWhile isWordChar).dropWhile isWsChar).takeWhile isWordChar
            = ['n', 'o', 't'] then
        '!' :: '=' ::
          substIsNotF fuel
            (((cs.dropWhile isWordChar).dropWhile isWsChar).dropWhile isWordChar)
      else
        (c :: cs.takeWhile isWordChar) ++ substIsNotF fuel (cs.dropWhile isWordChar)
    else c :: substIsNotF fuel cs

/-- .replace(/\bis\s+not\b/g, "!=") (wrapper fixing the fuel). -/
def substIsNot (l : List Char) : List Char :=
  substIsNotF l.length l

/-- src/server.js 265-274 translateExpr: the chained substitutions
yes→true, no→false, and→&&, or→||, not␣→!, mod→%, is→==, applied in
that order. -/
def translateExpr (expr : String) : String :=
  String.mk <|
    substWord ['i', 's'] ['=', '='] <|
    substWord ['m', 'o', 'd'] ['%'] <|
    substNot <|
    substWord ['o', 'r'] ['|', '|'] <|
    substWord ['a', 'n', 'd'] ['&', '&'] <|
    substWord ['n', 'o'] ['f', 'a', 'l', 's', 'e'] <|
    substWord ['y', 'e', 's'] ['t', 'r', 'u', 'e'] expr.data

/-- src/server.js 276-284 translateCond: the chained substitutions
is␣not→!=, is→==, and→&&, or→||, not␣→!, mod→%, applied in that
order. -/
def translateCond (cond : String) : String :=
  String.mk <|
    substWord ['m', 'o', 'd'] ['%'] <|
    substNot <|
    substWord ['o', 'r'] ['|', '|'] <|
    substWord ['a', 'n', 'd'] ['&', '&'] <|
    substWord ['i', 's'] ['=', '='] <|
    substIsNot cond.data

/-! ## Argument-list helpers (src/server.js 71 and 113 and 216) -/

/-- Scanner for .replace(/\s+and\s+/g, ", "): a whitespace run, the
literal "and", and a following whitespace run collapse to a comma and
a space. -/
def replAndSepF : Nat → List Char → List Char
  | _, [] => []
  | 0, l => l
  | fuel + 1, c :: cs =>
    if isWsChar c then
      match cs.dropWhile isWsChar with
      | 'a' :: 'n' :: 'd' :: d :: ds =>
        if isWsChar d then
          ',' :: ' ' :: replAndSepF fuel (ds.dropWhile isWsChar)
        else
          (c :: cs.takeWhile isWsChar) ++ replAndSepF fuel (cs.dropWhile isWsChar)
      | _ =>
        (c :: cs.takeWhile isWsChar) ++ replAndSepF fuel (cs.dropWhile isWsChar)
    else c :: replAndSepF fuel cs

/-- .replace(/\s+and\s+/g, ", ") (wrapper fixing the fuel). -/
def replAndSep (l : List Char) : List Char :=
  replAndSepF l.length l

/-- Scanner for .split(/,\s*/): split at each comma, also consuming the
whitespace that follows it. -/
def splitCommaWsF : Nat → List Char → List (List Char)
  | _, [] => [[]]
  | 0, l => [l]
  | fuel + 1, c :: cs =>
    if c == ',' then [] :: splitCommaWsF fuel (cs.dropWhile isWsChar)
    else
      match splitCommaWsF fuel cs with
      | h :: t => (c :: h) :: t
      | [] => [[c]]

/-- .split(/,\s*/) (wrapper fixing the fuel). -/
def splitCommaWs (l : List Char) : List (List Char) :=
  splitCommaWsF l.length l

/-- JS String.prototype.trim (ASCII whitespace model). -/
def trimChars (l : List Char) : List Char :=
  ((l.dropWhile isWsChar).reverse.dropWhile isWsChar).reverse

/-- argsRaw.replace(/\s+and\s+/g, ", ").split(/,\s*/)
.map(a => "auto " + a.trim()).join(", ")   (src/server.js 71, 113). -/
def autoArgs (argsRaw : List Char) : String :=
  String.intercalate ", "
    ((splitCommaWs (replAndSep argsRaw)).map
      (fun a => "auto " ++ String.mk (trimChars a)))

/-! ## Pattern-rule matchers (src/server.js 52-239)

Each line.match(regex) of the dispatch loop becomes a matcher on the
trimmed line's character list, returning the capture groups.  The
matchers realise the exact backtracking behaviour of the patterns:
a keyword of word characters followed by a non-word requirement matches
exactly when the maximal word run equals the keyword; a greedy (.+) or
(.*) before a fixed tail captures up to the rightmost position where
the tail matches; a \s+ before (.+) gives one whitespace character back
to the capture when the remainder alone would be empty. -/

/-- The maximal word run when nonempty, with the remainder ((\w+)). -/
def takeWordRun (l : List Char) : Option (List Char × List Char) :=
  if (l.takeWhile isWordChar).isEmpty then none
  else some (l.takeWhile isWordChar, l.dropWhile isWordChar)

/-- The maximal digit run when nonempty, with the remainder ((\d+)). -/
def takeDigitRun (l : List Char) : Option (List Char × List Char) :=
  if (l.takeWhile isDigitChar).isEmpty then none
  else some (l.takeWhile isDigitChar, l.dropWhile isDigitChar)

/-- A keyword of word characters followed (in the pattern) by a
non-word requirement: the maximal word run must equal the keyword.
Returns the remainder after the run. -/
def expectWordKw (kw : List Char) (l : List Char) : Option (List Char) :=
  if l.takeWhile isWordChar = kw then some (l.dropWhile isWordChar) else none

/-- \s+ followed by a non-whitespace requirement: at least one
whitespace character, maximally consumed.  Returns the remainder. -/
def expectWs1 (l : List Char) : Option (List Char) :=
  if headIsWs l then some (l.dropWhile isWsChar) else none

/-- Greedy capture for a trailing (.*):\s*$ — the longest prefix whose
next character is a colon followed by whitespace only.  At most one
colon can be followed by whitespace only, so this is the unique one. -/
def lastColonSplit : List Char → Option (List Char)
  | [] => none
  | c :: cs =>
    match lastColonSplit cs with
    | some r => some (c :: r)
    | none => if c == ':' && cs.all isWsChar then some [] else none

/-- Capture for a trailing \s+(.+)$ : at least one whitespace character,
then the greedy nonempty remainder; when only whitespace follows the
keyword, the regex backtracks one whitespace character into the
capture (needs at least two whitespace characters). -/
def wsPlusRest (l : List Char) : Option (List Char) :=
  if (l.takeWhile isWsChar).isEmpty then none
  else if !(l.dropWhile isWsChar).isEmpty then some (l.dropWhile isWsChar)
  else if 2 ≤ (l.takeWhile isWsChar).length then some [(l.takeWhile isWsChar).getLastD ' ']
  else none

/-- Capture for a trailing \s+(.+):\s*$ , with the same one-character
backtrack as wsPlusRest when the colon directly follows the
whitespace run. -/
def wsPlusCond (l : List Char) : Option (List Char) :=
  if (l.takeWhile isWsChar).isEmpty then none
  else
    match lastColonSplit (l.dropWhile isWsChar) with
    | none => none
    | some cap =>
      if !cap.isEmpty then some cap
      else if 2 ≤ (l.takeWhile isWsChar).length then
        some [(l.takeWhile isWsChar).getLastD ' ']
      else none

/-- Trailing \s*:\s*$ . -/
def wsColonEnd (l : List Char) : Bool :=
  match l.dropWhile isWsChar with
  | ':' :: rest => rest.all isWsChar
  | _ => false

/-- A quoted "(.*)" capture running to the end of the line: the opening
quote must come next, and the final character must be the closing
quote; the greedy capture is everything in between. -/
def quotedToEnd (q : Char) (r : List Char) : Option (List Char) :=
  match r with
  | c :: rest =>
    if c == q && !rest.isEmpty && rest.getLastD q == q then some rest.dropLast
    else none
  | [] => none

/-- 64: /^to\s+start\s*:$/ . -/
def mToStart (line : List Char) : Bool :=
  (do
    let r ← expectWordKw ['t', 'o'] line
    let r ← expectWs1 r
    let r ← expectWordKw ['s', 't', 'a', 'r', 't'] r
    if r.dropWhile isWsChar = [':'] then some () else none).isSome

/-- 67: /^to\s+(\w+)\s*(.*):\s*$/ — (name, raw argument text). -/
def mToFunc (line : List Char) : Option (List Char × List Char) := do
  let r ← expectWordKw ['t', 'o'] line
  let r ← expectWs1 r
  let (name, r) ← takeWordRun r
  let args ← lastColonSplit (r.dropWhile isWsChar)
  some (name, args)

/-- 86: /^a\s+(\w+)\s+has\s*:\s*$/ — struct name. -/
def mStructHeader (line : List Char) : Option (List Char) := do
  let r ← expectWordKw ['a'] line
  let r ← expectWs1 r
  let (name, r) ← takeWordRun r
  let r ← expectWs1 r
  let r ← expectWordKw ['h', 'a', 's'] r
  if wsColonEnd r then some name else none

/-- 96: /^(\w+)\s+as\s+(\w+)$/ — (field name, field type word). -/
def mStructField (line : List Char) : Option (List Char × List Char) := do
  let (fname, r) ← takeWordRun line
  let r ← expectWs1 r
  let r ← expectWordKw ['a', 's'] r
  let r ← expectWs1 r
  let (ftype, r) ← takeWordRun r
  if r.isEmpty then some (fname, ftype) else none

/-- 111: /^a\s+(\w+)\s+can\s+(\w+)\s*(.*):\s*$/ —
(struct name, method name, raw argument text). -/
def mStructMethod (line : List Char) :
    Option (List Char × List Char × List Char) := do
  let r ← expectWordKw ['a'] line
  let r ← expectWs1 r
  let (sname, r) ← takeWordRun r
  let r ← expectWs1 r
  let r ← expectWordKw ['c', 'a', 'n'] r
  let r ← expectWs1 r
  let (mname, r) ← takeWordRun r
  let args ← lastColonSplit (r.dropWhile isWsChar)
  some (sname, mname, args)

/-- 121: /^say\s+"(.*)"$/ . -/
def mSayStr (line : List Char) : Option (List Char) := do
  let r ← expectWordKw ['s', 'a', 'y'] line
  let r ← expectWs1 r
  quotedToEnd '\"' r

/-- 123: /^say\s+'(.*)'$/ . -/
def mSaySingle (line : List Char) : Option (List Char) := do
  let r ← expectWordKw ['s', 'a', 'y'] line
  let r ← expectWs1 r
  quotedToEnd '\'' r

/-- 125: /^say\s+(.+)$/ . -/
def mSayExpr (line : List Char) : Option (List Char) := do
  let r ← expectWordKw ['s', 'a', 'y'] line
  wsPlusRest r

/-- 129: /^print\s+"(.*)"$/ . -/
def mPrintStr (line : List Char) : Option (List Char) := do
  let r ← expectWordKw ['p', 'r', 'i', 'n', 't'] line
  let r ← expectWs1 r
  quotedToEnd '\"' r

/-- 131: /^print\s+(.+)$/ . -/
def mPrintExpr (line : List Char) : Option (List Char) := do
  let r ← expectWordKw ['p', 'r', 'i', 'n', 't'] line
  wsPlusRest r

/-- Shared head (\w+)\s+is of the binding rules; the remainder starts
at the text that follows the "is" word run. -/
def mNameIsRaw (line : List Char) : Option (List Char × List Char) := do
  let (name, r) ← takeWordRun line
  let r ← expectWs1 r
  let r ← expectWordKw ['i', 's'] r
  some (name, r)

/-- 135: /^(\w+)\s+is\s+"(.*)"$/ . -/
def mAssignStr (line : List Char) : Option (List Char × List Char) := do
  let (name, r) ← mNameIsRaw line
  let r ← expectWs1 r
  let v ← quotedToEnd '\"' r
  some (name, v)

/-- 137: /^(\w+)\s+is\s+'(.*)'$/ . -/
def mAssignSingle (line : List Char) : Option (List Char × List Char) := do
  let (name, r) ← mNameIsRaw line
  let r ← expectWs1 r
  let v ← quotedToEnd '\'' r
  some (name, v)

/-- 139: /^(\w+)\s+is\s+(\d+\.\d+)$/ . -/
def mAssignFloat (line : List Char) : Option (List Char × List Char) := do
  let (name, r) ← mNameIsRaw line
  let r ← expectWs1 r
  let (d1, r) ← takeDigitRun r
  match r with
  | '.' :: r2 =>
    match takeDigitRun r2 with
    | some (d2, rest) =>
      if rest.isEmpty then some (name, d1 ++ '.' :: d2) else none
    | none => none
  | _ => none

/-- 141: /^(\w+)\s+is\s+(-?\d+)$/ . -/
def mAssignInt (line : List Char) : Option (List Char × List Char) := do
  let (name, r) ← mNameIsRaw line
  let r ← expectWs1 r
  match r with
  | '-' :: r2 =>
    if !r2.isEmpty && r2.all isDigitChar then some (name, r) else none
  | _ =>
    if !r.isEmpty && r.all isDigitChar then some (name, r) else none

/-- 143: /^(\w+)\s+is\s+(yes|no)$/ — capture as the truth value. -/
def mAssignBool (line : List Char) : Option (List Char × Bool) := do
  let (name, r) ← mNameIsRaw line
  let r ← expectWs1 r
  if r = ['y', 'e', 's'] then some (name, true)
  else if r = ['n', 'o'] then some (name, false)
  else none

/-- 145: /^(\w+)\s+is\s+\[(.+)\]$/ . -/
def mAssignVec (line : List Char) : Option (List Char × List Char) := do
  let (name, r) ← mNameIsRaw line
  let r ← expectWs1 r
  match r with
  | '[' :: rest =>
    if !rest.isEmpty && rest.getLastD ']' == ']' && !rest.dropLast.isEmpty then
      some (name, rest.dropLast)
    else none
  | _ => none

/-- The tail \s*can\s+change$ checked after a candidate comma. -/
def canChangeTail (l : List Char) : Bool :=
  match expectWordKw ['c', 'a', 'n'] (l.dropWhile isWsChar) with
  | some r =>
    match expectWs1 r with
    | some r2 => r2 == ['c', 'h', 'a', 'n', 'g', 'e']
    | none => false
  | none => false

/-- Greedy (.+) capture before the rightmost comma whose suffix matches
\s*can\s+change$ . -/
def lastCanChangeSplit : List Char → Option (List Char)
  | [] => none
  | c :: cs =>
    match lastCanChangeSplit cs with
    | some r => some (c :: r)
    | none => if c == ',' && canChangeTail cs then some [] else none

/-- 149: /^(\w+)\s+is\s+(.+),\s*can\s+change$/ , with the
one-whitespace-character backtrack when the comma directly follows the
whitespace run after "is". -/
def mAssignMut (line : List Char) : Option (List Char × List Char) := do
  let (name, r0) ← mNameIsRaw line
  if (r0.takeWhile isWsChar).isEmpty then none
  else
    match lastCanChangeSplit (r0.dropWhile isWsChar) with
    | none => none
    | some cap =>
      if !cap.isEmpty then some (name, cap)
      else if 2 ≤ (r0.takeWhile isWsChar).length then
        some (name, [(r0.takeWhile isWsChar).getLastD ' '])
      else none

/-- 153: /^(\w+)\s+is\s+(.+)$/ (the keyword guard of 154 is applied at
the use site). -/
def mAssignGeneric (line : List Char) : Option (List Char × List Char) := do
  let (name, r0) ← mNameIsRaw line
  let v ← wsPlusRest r0
  some (name, v)

/-- 160: /^(\w+)\s+becomes\s+(.+)$/ . -/
def mBecomes (line : List Char) : Option (List Char × List Char) := do
  let (name, r) ← takeWordRun line
  let r ← expectWs1 r
  let r ← expectWordKw ['b', 'e', 'c', 'o', 'm', 'e', 's'] r
  let v ← wsPlusRest r
  some (name, v)

/-- 164: /^return\s+(.+)$/ . -/
def mReturnExpr (line : List Char) : Option (List Char) := do
  let r ← expectWordKw ['r', 'e', 't', 'u', 'r', 'n'] line
  wsPlusRest r

/-- 169: /^if\s+(.+):\s*$/ . -/
def mIf (line : List Char) : Option (List Char) := do
  let r ← expectWordKw ['i', 'f'] line
  wsPlusCond r

/-- 171: /^otherwise\s+if\s+(.+):\s*$/ . -/
def mOtherwiseIf (line : List Char) : Option (List Char) := do
  let r ← expectWordKw ['o', 't', 'h', 'e', 'r', 'w', 'i', 's', 'e'] line
  let r ← expectWs1 r
  let r ← expectWordKw ['i', 'f'] r
  wsPlusCond r

/-- 176: /^for\s+each\s+(\w+)\s+in\s+(\d+)\s+to\s+(\d+)\s*:\s*$/ . -/
def mForRange (line : List Char) :
    Option (List Char × List Char × List Char) := do
  let r ← expectWordKw ['f', 'o', 'r'] line
  let r ← expectWs1 r
  let r ← expectWordKw ['e', 'a', 'c', 'h'] r
  let r ← expectWs1 r
  let (v, r) ← takeWordRun r
  let r ← expectWs1 r
  let r ← expectWordKw ['i', 'n'] r
  let r ← expectWs1 r
  let (lo, r) ← takeDigitRun r
  let r ← expectWs1 r
  let r ← expectWordKw ['t', 'o'] r
  let r ← expectWs1 r
  let (hi, r) ← takeDigitRun r
  if wsColonEnd r then some (v, lo, hi) else none

/-- 178: /^for\s+each\s+(\w+)\s+in\s+(\w+)\s*:\s*$/ . -/
def mForIn (line : List Char) : Option (List Char × List Char) := do
  let r ← expectWordKw ['f', 'o', 'r'] line
  let r ← expectWs1 r
  let r ← expectWordKw ['e', 'a', 'c', 'h'] r
  let r ← expectWs1 r
  let (v, r) ← takeWordRun r
  let r ← expectWs1 r
  let r ← expectWordKw ['i', 'n'] r
  let r ← expectWs1 r
  let (coll, r) ← takeWordRun r
  if wsColonEnd r then some (v, coll) else none

/-- 180: /^repeat\s+(\d+)\s+times\s*:\s*$/ . -/
def mRepeat (line : List Char) : Option (List Char) := do
  let r ← expectWordKw ['r', 'e', 'p', 'e', 'a', 't'] line
  let r ← expectWs1 r
  let (n, r) ← takeDigitRun r
  let r ← expectWs1 r
  let r ← expectWordKw ['t', 'i', 'm', 'e', 's'] r
  if wsColonEnd r then some n else none

/-- 182: /^while\s+(.+):\s*$/ . -/
def mWhile (line : List Char) : Option (List Char) := do
  let r ← expectWordKw ['w', 'h', 'i', 'l', 'e'] line
  wsPlusCond r

/-- 188: /^pause\s+(\d+)$/ . -/
def mPause (line : List Char) : Option (List Char) := do
  let r ← expectWordKw ['p', 'a', 'u', 's', 'e'] line
  let r ← expectWs1 r
  let (n, rest) ← takeDigitRun r
  if rest.isEmpty then some n else none

/-- The separator "\s+to\s+" of the write rule checked at one position;
returns the remainder after its closing quote. -/
def writeSepAt (l : List Char) : Option (List Char) :=
  match l with
  | '\"' :: r =>
    if headIsWs r then
      match r.dropWhile isWsChar with
      | 't' :: 'o' :: r2 =>
        if headIsWs r2 then
          match r2.dropWhile isWsChar with
          | '\"' :: b => some b
          | _ => none
        else none
      | _ => none
    else none
  | _ => none

/-- The remainder after the separator must be (.+)" up to the end. -/
def validWriteTail (b : List Char) : Bool :=
  !b.isEmpty && b.getLastD '\"' == '\"' && !b.dropLast.isEmpty

/-- Rightmost valid separator for the write rule; returns the greedy
(text, path) captures. -/
def lastWriteSplit : List Char → Option (List Char × List Char)
  | [] => none
  | c :: cs =>
    match lastWriteSplit cs with
    | some (a, b) => some (c :: a, b)
    | none =>
      match writeSepAt (c :: cs) with
      | some b => if validWriteTail b then some ([], b.dropLast) else none
      | none => none

/-- 192: /^write\s+"(.+)"\s+to\s+"(.+)"$/ — (text, path). -/
def mWrite (line : List Char) : Option (List Char × List Char) := do
  let r ← expectWordKw ['w', 'r', 'i', 't', 'e'] line
  let r ← expectWs1 r
  match r with
  | '\"' :: rest =>
    match lastWriteSplit rest with
    | some (a, b) => if !a.isEmpty then some (a, b) else none
    | none => none
  | _ => none

/-- 194: /^(\w+)\s+is\s+read\s+"(.+)"$/ — (name, path). -/
def mRead (line : List Char) : Option (List Char × List Char) := do
  let (name, r) ← mNameIsRaw line
  let r ← expectWs1 r
  let r ← expectWordKw ['r', 'e', 'a', 'd'] r
  let r ← expectWs1 r
  let v ← quotedToEnd '\"' r
  if v.isEmpty then none else some (name, v)

/-- 198: /^(\w+)\s+is\s+ask\s+"(.+)"$/ — (name, prompt). -/
def mAsk (line : List Char) : Option (List Char × List Char) := do
  let (name, r) ← mNameIsRaw line
  let r ← expectWs1 r
  let r ← expectWordKw ['a', 's', 'k'] r
  let r ← expectWs1 r
  let v ← quotedToEnd '\"' r
  if v.isEmpty then none else some (name, v)

/-- 202: /^(\w+)\s+is\s+sqrt\s+(.+)$/ . -/
def mSqrt (line : List Char) : Option (List Char × List Char) := do
  let (name, r) ← mNameIsRaw line
  let r ← expectWs1 r
  let r ← expectWordKw ['s', 'q', 'r', 't'] r
  let v ← wsPlusRest r
  some (name, v)

/-- 204: /^(\w+)\s+is\s+abs\s+(.+)$/ . -/
def mAbs (line : List Char) : Option (List Char × List Char) := do
  let (name, r) ← mNameIsRaw line
  let r ← expectWs1 r
  let r ← expectWordKw ['a', 'b', 's'] r
  let v ← wsPlusRest r
  some (name, v)

/-- Rightmost whitespace character with a nonempty suffix after it;
returns (prefix before it, suffix after it). -/
def lastWsSplit : List Char → Option (List Char × List Char)
  | [] => none
  | c :: cs =>
    match lastWsSplit cs with
    | some (a, b) => some (c :: a, b)
    | none => if isWsChar c && !cs.isEmpty then some ([], cs) else none

/-- Backtracking split realising \s+(.+)\s+(.+)$ : the leading
whitespace run is shortened just far enough for the first capture to be
nonempty; the separator is the rightmost whitespace character that has
a nonempty suffix. -/
def powSplit (s : List Char) : Option (List Char × List Char) :=
  match lastWsSplit s with
  | none => none
  | some (a, b) =>
    if 1 ≤ (s.takeWhile isWsChar).length && 2 ≤ a.length then
      some (a.drop (min (s.takeWhile isWsChar).length (a.length - 1)), b)
    else none

/-- 206: /^(\w+)\s+is\s+pow\s+(.+)\s+(.+)$/ . -/
def mPow (line : List Char) :
    Option (List Char × List Char × List Char) := do
  let (name, r) ← mNameIsRaw line
  let r ← expectWs1 r
  let r ← expectWordKw ['p', 'o', 'w'] r
  match powSplit r with
  | some (x, y) => some (name, x, y)
  | none => none

/-- 210: /^(\w+)\s+is\s+random\s+(\d+)\s+(\d+)$/ . -/
def mRandom (line : List Char) :
    Option (List Char × List Char × List Char) := do
  let (name, r) ← mNameIsRaw line
  let r ← expectWs1 r
  let r ← expectWordKw ['r', 'a', 'n', 'd', 'o', 'm'] r
  let r ← expectWs1 r
  let (lo, r) ← takeDigitRun r
  let r ← expectWs1 r
  let (hi, r) ← takeDigitRun r
  if r.isEmpty then some (name, lo, hi) else none

/-- 214: /^(\w+)\s+(.+)$/ (the keyword guard of 215 is applied at the
use site). -/
def mCallArgs (line : List Char) : Option (List Char × List Char) := do
  let (name, r) ← takeWordRun line
  let v ← wsPlusRest r
  some (name, v)

/-- 222: /^(\w+)$/ . -/
def mBareWord (line : List Char) : Option (List Char) :=
  if !line.isEmpty && line.all isWordChar then some line else none

/-! ## Translator state and dispatch loop (src/server.js 40-263) -/

/-- The mutable translation state threaded through the line loop:
include set (as an insertion-ordered deduplicated list), declarations,
top-level body statements, struct definitions, and the two
inside-a-block flags (with the bookkeeping name fields). -/
structure TState where
  includes : List String
  declarations : List String
  bodyLines : List String
  structs : List String
  inFunction : Bool
  inStruct : Bool
  currentFunc : Option String
  currentStruct : Option String
deriving DecidableEq

/-- src/server.js 42: the six initial include directives, in order. -/
def initialIncludes : List String :=
  ["#include <iostream>", "#include <string>", "#include <vector>",
   "#include <cmath>", "#include <sstream>", "#include <algorithm>"]

/-- The fresh per-call translation state. -/
def initState : TState :=
  { includes := initialIncludes
    declarations := []
    bodyLines := []
    structs := []
    inFunction := false
    inStruct := false
    currentFunc := none
    currentStruct := none }

/-- Set.prototype.add: append only when absent, preserving first
insertion order. -/
def addInclude (st : TState) (inc : String) : TState :=
  if inc ∈ st.includes then st else { st with includes := st.includes ++ [inc] }

/-- target.push(s): the target is declarations inside a function and
bodyLines otherwise (chosen from the flag captured at src/server.js 60,
before the line mutates any state). -/
def pushTarget (toDecl : Bool) (st : TState) (s : String) : TState :=
  if toDecl then { st with declarations := st.declarations ++ [s] }
  else { st with bodyLines := st.bodyLines ++ [s] }

/-- src/server.js 98 typeMap with its || "auto" default. -/
def fieldType (t : List Char) : String :=
  if t = ['t', 'e', 'x', 't'] then "std::string"
  else if t = ['n', 'u', 'm', 'b', 'e', 'r'] then "int"
  else if t = ['d', 'e', 'c', 'i', 'm', 'a', 'l'] then "double"
  else if t = ['b', 'o', 'o', 'l', 'e', 'a', 'n'] then "bool"
  else "auto"

/-- src/server.js 154 guard of the generic binding rule. -/
def genericGuard : List String := ["if", "for", "while", "a"]

/-- src/server.js 215 guard of the space-separated call rule. -/
def callGuard : List String :=
  ["is", "becomes", "has", "can", "as", "in", "to", "if", "for", "while",
   "repeat", "say", "print", "write", "return", "otherwise", "skip",
   "stop", "pause", "test", "assert", "try", "catch", "throw", "log"]

/-- src/server.js 223 guard of the bare call rule. -/
def bareGuard : List String := ["skip", "stop", "return", "otherwise"]

/-- src/server.js 115: the struct-method free-function header. -/
def methodHeader (sname mname args : List Char) : String :=
  let argsStr := if (trimChars args).isEmpty then "" else autoArgs args
  "void " ++ String.mk sname ++ "_" ++ String.mk mname ++ "(" ++
    String.mk sname ++ "& self" ++
    (if argsStr = "" then "" else ", " ++ argsStr) ++ ") \x7b"

/-- src/server.js 72: the function header line. -/
def funcHeader (name args : List Char) : String :=
  "auto " ++ String.mk name ++ "(" ++
    (if (trimChars args).isEmpty then "" else autoArgs (trimChars args)) ++
    ") \x7b"

/-- The bare-call rule (222) and the unrecognized-line comment fallback
(238). -/
def lastRules (toDecl : Bool) (st : TState) (line : List Char) : TState :=
  match mBareWord line with
  | some n =>
    if String.mk n ∈ bareGuard then
      pushTarget toDecl st ("    // [flow] " ++ String.mk line)
    else pushTarget toDecl st ("    " ++ String.mk n ++ "();")
  | none => pushTarget toDecl st ("    // [flow] " ++ String.mk line)

/-- The rules tried after the generic binding rule declines (160-238). -/
def fallthroughAfterGeneric (toDecl : Bool) (st : TState) (line : List Char) :
    TState :=
  match mBecomes line with
  | some (n, v) => pushTarget toDecl st
      ("    " ++ String.mk n ++ " = " ++ translateExpr (String.mk v) ++ ";")
  | none =>
  match mReturnExpr line with
  | some v => pushTarget toDecl st
      ("    return " ++ translateExpr (String.mk v) ++ ";")
  | none =>
  if line = ['r', 'e', 't', 'u', 'r', 'n'] then
    pushTarget toDecl st "    return;"
  else
  match mIf line with
  | some c => pushTarget toDecl st
      ("    if (" ++ translateCond (String.mk c) ++ ") \x7b")
  | none =>
  match mOtherwiseIf line with
  | some c => pushTarget toDecl st
      ("    \x7d else if (" ++ translateCond (String.mk c) ++ ") \x7b")
  | none =>
  if line = ['o', 't', 'h', 'e', 'r', 'w', 'i', 's', 'e', ':'] then
    pushTarget toDecl st "    \x7d else \x7b"
  else
  match mForRange line with
  | some (v, lo, hi) => pushTarget toDecl st
      ("    for (int " ++ String.mk v ++ " = " ++ String.mk lo ++ "; " ++
        String.mk v ++ " <= " ++ String.mk hi ++ "; " ++ String.mk v ++ "++) \x7b")
  | none =>
  match mForIn line with
  | some (v, coll) => pushTarget toDecl st
      ("    for (const auto& " ++ String.mk v ++ " : " ++ String.mk coll ++ ") \x7b")
  | none =>
  match mRepeat line with
  | some n => pushTarget toDecl st
      ("    for (int _i = 0; _i < " ++ String.mk n ++ "; _i++) \x7b")
  | none =>
  match mWhile line with
  | some c => pushTarget toDecl st
      ("    while (" ++ translateCond (String.mk c) ++ ") \x7b")
  | none =>
  if line = ['s', 'k', 'i', 'p'] then pushTarget toDecl st "    continue;"
  else if line = ['s', 't', 'o', 'p'] then pushTarget toDecl st "    break;"
  else
  match mPause line with
  | some n =>
    pushTarget toDecl
      (addInclude (addInclude st "#include <thread>") "#include <chrono>")
      ("    std::this_thread::sleep_for(std::chrono::milliseconds(" ++
        String.mk n ++ "));")
  | none =>
  match mWrite line with
  | some (txt, path) =>
    pushTarget toDecl (addInclude st "#include <fstream>")
      ("    \x7b std::ofstream f(\"" ++ String.mk path ++ "\"); f << \"" ++
        String.mk txt ++ "\"; \x7d")
  | none =>
  match mRead line with
  | some (n, path) =>
    pushTarget toDecl (addInclude st "#include <fstream>")
      ("    std::string " ++ String.mk n ++ "; \x7b std::ifstream f(\"" ++
        String.mk path ++ "\"); std::ostringstream s; s << f.rdbuf(); " ++
        String.mk n ++ " = s.str(); \x7d")
  | none =>
  match mAsk line with
  | some (n, prompt) => pushTarget toDecl st
      ("    std::string " ++ String.mk n ++ "; std::cout << \"" ++
        String.mk prompt ++ "\"; std::getline(std::cin, " ++ String.mk n ++ ");")
  | none =>
  match mSqrt line with
  | some (n, v) => pushTarget toDecl st
      ("    const auto " ++ String.mk n ++ " = std::sqrt(" ++
        translateExpr (String.mk v) ++ ");")
  | none =>
  match mAbs line with
  | some (n, v) => pushTarget toDecl st
      ("    const auto " ++ String.mk n ++ " = std::abs(" ++
        translateExpr (String.mk v) ++ ");")
  | none =>
  match mPow line with
  | some (n, x, y) => pushTarget toDecl st
      ("    const auto " ++ String.mk n ++ " = std::pow(" ++
        translateExpr (String.mk x) ++ ", " ++ translateExpr (String.mk y) ++ ");")
  | none =>
  match mRandom line with
  | some (n, lo, hi) =>
    pushTarget toDecl (addInclude st "#include <random>")
      ("    int " ++ String.mk n ++ "; \x7b std::random_device rd; " ++
        "std::mt19937 gen(rd()); std::uniform_int_distribution<> dis(" ++
        String.mk lo ++ ", " ++ String.mk hi ++ "); " ++ String.mk n ++
        " = dis(gen); \x7d")
  | none =>
  match mCallArgs line with
  | some (n, args) =>
    if String.mk n ∈ callGuard then lastRules toDecl st line
    else pushTarget toDecl st
      ("    " ++ String.mk n ++ "(" ++ String.mk (replAndSep args) ++ ");")
  | none => lastRules toDecl st line

/-- The statement rules of the dispatch loop from the output rules (121)
through the unrecognized-line fallback (238): first match wins and
pushes its emission onto the captured target; the timed-suspension,
file, and random rules also extend the include set. -/
def dispatchStmt (toDecl : Bool) (st : TState) (line : List Char) : TState :=
  match mSayStr line with
  | some v => pushTarget toDecl st
      ("    std::cout << \"" ++ String.mk v ++ "\" << std::endl;")
  | none =>
  match mSaySingle line with
  | some v => pushTarget toDecl st
      ("    std::cout << \"" ++ String.mk v ++ "\" << std::endl;")
  | none =>
  match mSayExpr line with
  | some v => pushTarget toDecl st
      ("    std::cout << " ++ translateExpr (String.mk v) ++ " << std::endl;")
  | none =>
  match mPrintStr line with
  | some v => pushTarget toDecl st ("    std::cout << \"" ++ String.mk v ++ "\";")
  | none =>
  match mPrintExpr line with
  | some v => pushTarget toDecl st
      ("    std::cout << " ++ translateExpr (String.mk v) ++ ";")
  | none =>
  match mAssignStr line with
  | some (n, v) => pushTarget toDecl st
      ("    const std::string " ++ String.mk n ++ " = \"" ++ String.mk v ++ "\";")
  | none =>
  match mAssignSingle line with
  | some (n, v) => pushTarget toDecl st
      ("    const std::string " ++ String.mk n ++ " = \"" ++ String.mk v ++ "\";")
  | none =>
  match mAssignFloat line with
  | some (n, v) => pushTarget toDecl st
      ("    const double " ++ String.mk n ++ " = " ++ String.mk v ++ ";")
  | none =>
  match mAssignInt line with
  | some (n, v) => pushTarget toDecl st
      ("    const int " ++ String.mk n ++ " = " ++ String.mk v ++ ";")
  | none =>
  match mAssignBool line with
  | some (n, b) => pushTarget toDecl st
      ("    const bool " ++ String.mk n ++ " = " ++
        (if b then "true" else "false") ++ ";")
  | none =>
  match mAssignVec line with
  | some (n, v) => pushTarget toDecl st
      ("    const auto " ++ String.mk n ++ " = std::vector<int>\x7b" ++
        String.mk v ++ "\x7d;")
  | none =>
  match mAssignMut line with
  | some (n, v) => pushTarget toDecl st
      ("    auto " ++ String.mk n ++ " = " ++ translateExpr (String.mk v) ++ ";")
  | none =>
  match mAssignGeneric line with
  | some (n, v) =>
    if String.mk n ∈ genericGuard then fallthroughAfterGeneric toDecl st line
    else pushTarget toDecl st
      ("    const auto " ++ String.mk n ++ " = " ++ translateExpr (String.mk v) ++ ";")
  | none => fallthroughAfterGeneric toDecl st line

/-- Rule 111 (struct method) and the statement rules: the method header
is pushed directly onto declarations and opens a function; any other
line goes to the statement dispatch. -/
def methodPhase (toDecl : Bool) (st2 : TState) (line : List Char) : TState :=
  match mStructMethod line with
  | some (sname, mname, args) =>
    { st2 with
      declarations := st2.declarations ++ [methodHeader sname mname args]
      inFunction := true }
  | none => dispatchStmt toDecl st2 line

/-- Rules 86-108 (struct header, struct field, dedent-triggered struct
close), then the method/statement rules. -/
def structPhase (toDecl : Bool) (st1 : TState) (line : List Char)
    (indent : Nat) : TState :=
  match mStructHeader line with
  | some sname =>
    { st1 with
      structs := st1.structs ++ ["struct " ++ String.mk sname ++ " \x7b"]
      inStruct := true
      currentStruct := some (String.mk sname) }
  | none =>
    match (if st1.inStruct then mStructField line else none) with
    | some (fname, ftype) =>
      { st1 with structs := st1.structs ++
          ["    " ++ fieldType ftype ++ " " ++ String.mk fname ++ ";"] }
    | none =>
      methodPhase toDecl
        (if st1.inStruct ∧ indent = 0 then
          { st1 with
            structs := st1.structs ++ ["\x7d;\n"]
            inStruct := false
            currentStruct := none }
         else st1)
        line

/-- One iteration of the dispatch loop (src/server.js 52-239) on one raw
line: trim, skip blank and comment lines, capture the target flag,
handle the entry-point and function-definition rules and the
dedent-triggered function close, then the struct, method and statement
rules (the phases mirror the source's sequential rule order). -/
def processLine (st : TState) (raw : List Char) : TState :=
  let line := trimChars raw
  let indent := (raw.takeWhile isWsChar).length
  if line.isEmpty || line.take 2 = ['/', '/'] || line.take 1 = ['#'] then st
  else
    if mToStart line then { st with inFunction := false }
    else
      match mToFunc line with
      | some (name, args) =>
        { st with
          declarations := st.declarations ++ [funcHeader name args]
          inFunction := true
          currentFunc := some (String.mk name) }
      | none =>
        structPhase st.inFunction
          (if st.inFunction ∧ indent = 0 ∧ line ≠ [] ∧ line.take 3 ≠ ['t', 'o', ' '] then
            { st with
              declarations := st.declarations ++ ["\x7d\n"]
              inFunction := false
              currentFunc := none }
           else st)
          line indent

/-- src/server.js 242-243: close any function or struct still open at
the end of the input. -/
def finishTranslate (st : TState) : TState :=
  let stf :=
    if st.inFunction then
      { st with declarations := st.declarations ++ ["\x7d\n"] }
    else st
  if stf.inStruct then { stf with structs := stf.structs ++ ["\x7d;\n"] }
  else stf

/-- flowCode.split("\n") on character lists. -/
def splitLines : List Char → List (List Char)
  | [] => [[]]
  | c :: cs =>
    if c == '\n' then [] :: splitLines cs
    else
      match splitLines cs with
      | h :: t => (c :: h) :: t
      | [] => [[c]]

/-- The translator state after the dispatch loop and the final closes. -/
def runTranslate (lines : List (List Char)) : TState :=
  finishTranslate (lines.foldl processLine initState)

/-- src/server.js 249-262: the assembled output parts, in order:
include directives, a blank, the identifying phi comment, a blank, the
struct definitions (when any), the reconciled declarations (when any),
the entry point header, the reconciled body, the success return and
the closing delimiter. -/
def assembleParts (st : TState) : List String :=
  st.includes ++ ["", "// φ = 1.618033988749895", ""] ++
    (if st.structs.isEmpty then [] else st.structs) ++
    (if (closeBlocks st.declarations).isEmpty then [] else closeBlocks st.declarations) ++
    ["int main() \x7b"] ++ closeBlocks st.bodyLines ++ ["    return 0;", "\x7d"]

/-- src/server.js 40-263 translateFlowToCpp: split into lines, run the
dispatch loop, close open blocks, reconcile, assemble, and join with
newlines. -/
def translateFlowToCpp (flowCode : String) : String :=
  String.intercalate "\n" (assembleParts (runTranslate (splitLines flowCode.data)))

/-! ## History ledger (src/server.js 22-38)

The phi_pulse field (Math.sin(count * PHI) * 0.5 + 0.5) is a
floating-point value the spec calls cosmetic and not a correctness
concern; it is a function of the counter and is left out of the model.
The timestamp comes from the external clock and is passed in. -/

/-- One entry of the history ledger (a Compilation Job record). -/
structure Idea where
  id : Nat
  flow : String
  cpp : String
  success : Bool
  output : String
  timestamp : String
deriving DecidableEq

/-- The module-level mutable ledger state: the ideaStream array and the
compilationCount counter. -/
structure LedgerState where
  ideaStream : List Idea
  compilationCount : Nat
deriving DecidableEq

/-- Initial ledger state: empty stream, zero compilations. -/
def initLedger : LedgerState := { ideaStream := [], compilationCount := 0 }

/-- src/server.js 26-38 logIdea: increment the counter, build the entry,
push it, and if the stream now holds more than 500 entries remove the
oldest (Array.prototype.shift drops index 0). -/
def logIdea (st : LedgerState) (flow cpp : String) (success : Bool)
    (output timestamp : String) : LedgerState :=
  let count := st.compilationCount + 1
  let idea : Idea :=
    { id := count
      flow := flow
      cpp := cpp
      success := success
      output := output
      timestamp := timestamp }
  let pushed := st.ideaStream ++ [idea]
  { ideaStream := if 500 < pushed.length then pushed.tail else pushed
    compilationCount := count }

/-! ## Sandbox harness (src/server.js 356-387)

The external toolchain interactions (which g++, writeFileSync, the two
execSync calls with their timeouts) are modelled by a Toolchain record
giving the outcome of each step; a thrown exception carries the
stderr/stdout diagnostic buffers (empty string standing for a missing,
JS-falsy buffer) and the error message. -/

/-- The data carried by a caught exception: err.stderr, err.stdout
(empty string when absent or empty, both JS-falsy) and err.message. -/
structure ExecFailure where
  stderrText : String
  stdoutText : String
  message : String
deriving DecidableEq

/-- Outcome of executing the compiled binary: captured stdout, or a
thrown failure (runtime error or timeout). -/
inductive RunStep where
  | finished (stdout : String)
  | failed (err : ExecFailure)
deriving DecidableEq

/-- Environment model for one compileAndRun invocation. -/
structure Toolchain where
  gxxFound : Bool
  writeStep : Option ExecFailure
  compileStep : Option ExecFailure
  runStep : RunStep
deriving DecidableEq

/-- Result record of compileAndRun: success flag and output payload. -/
structure RunResult where
  success : Bool
  output : String
deriving DecidableEq

/-- src/server.js 380-384: the diagnostic text of a caught error:
err.stderr if truthy, else err.stdout if truthy, else err.message. -/
def diagnosticText (e : ExecFailure) : String :=
  if e.stderrText ≠ "" then e.stderrText
  else if e.stdoutText ≠ "" then e.stdoutText
  else e.message

/-- src/server.js 356-387 compileAndRun: preflight which g++ (unavailable
toolchain short-circuits), then write the source, compile, and run,
converting any thrown step into success=false with the diagnostic text;
on success the captured stdout is returned, with "(no output)" replacing
an empty (JS-falsy) capture.  The source text itself only flows into the
written file, so the result is determined by the toolchain outcomes. -/
def compileAndRun (tc : Toolchain) (cppSource : String) : RunResult :=
  if !tc.gxxFound then
    { success := false, output := "[runtime unavailable: g++ not found]" }
  else
    match tc.writeStep with
    | some e => { success := false, output := diagnosticText e }
    | none =>
      match tc.compileStep with
      | some e => { success := false, output := diagnosticText e }
      | none =>
        match tc.runStep with
        | .failed e => { success := false, output := diagnosticText e }
        | .finished out =>
          { success := true, output := if out = "" then "(no output)" else out }

/-! ## Server global state (src/server.js 22-24, 326-327)

translateFlowToCpp reads none of the module-level mutable state: its
body uses only its argument, fresh local structures, the PHI constant
and the pure helpers.  The embedding therefore takes the global state
as an argument that the generated source cannot depend on. -/

/-- The module-level mutable server state: ledger and counter,
perpetual-motion cycle index, and whether the driver timer is armed. -/
structure GlobalState where
  ledger : LedgerState
  perpetualIndex : Nat
  perpetualArmed : Bool
deriving DecidableEq

/-- The generated source computed by the message handler
(src/server.js 470) in a given global state. -/
def generatedCpp (g : GlobalState) (flowCode : String) : String :=
  translateFlowToCpp flowCode

/-- One field-tuple of inputs to logIdea (the data of one compilation
attempt, with the externally supplied timestamp). -/
structure JobInput where
  flow : String
  cpp : String
  success : Bool
  output : String
  timestamp : String
deriving DecidableEq

/-- Fold a sequence of compilation attempts through logIdea starting
from the fresh ledger. -/
def logIdeaAll (inputs : List JobInput) : LedgerState :=
  inputs.foldl
    (fun st i => logIdea st i.flow i.cpp i.success i.output i.timestamp)
    initLedger

/-- The translator state produced for a given input text. -/
def translationState (flowCode : String) : TState :=
  runTranslate (splitLines flowCode.data)

/-- No consuming pattern rule of the dispatch loop matches the trimmed
line (in the source's priority order; the struct-field rule applies
only inside a struct, and the three guarded rules consume a line only
when their keyword guard lets them). -/
def NoRuleMatches (inStructFlag : Bool) (line : List Char) : Prop :=
  mToStart line = false ∧ mToFunc line = none ∧ mStructHeader line = none ∧
  (inStructFlag = true → mStructField line = none) ∧
  mStructMethod line = none ∧
  mSayStr line = none ∧ mSaySingle line = none ∧ mSayExpr line = none ∧
  mPrintStr line = none ∧ mPrintExpr line = none ∧
  mAssignStr line = none ∧ mAssignSingle line = none ∧
  mAssignFloat line = none ∧ mAssignInt line = none ∧
  mAssignBool line = none ∧ mAssignVec line = none ∧
  mAssignMut line = none ∧
  (mAssignGeneric line).all (fun p => decide (String.mk p.1 ∈ genericGuard)) = true ∧
  mBecomes line = none ∧ mReturnExpr line = none ∧
  line ≠ ['r', 'e', 't', 'u', 'r', 'n'] ∧
  mIf line = none ∧ mOtherwiseIf line = none ∧
  line ≠ ['o', 't', 'h', 'e', 'r', 'w', 'i', 's', 'e', ':'] ∧
  mForRange line = none ∧ mForIn line = none ∧
  mRepeat line = none ∧ mWhile line = none ∧
  line ≠ ['s', 'k', 'i', 'p'] ∧ line ≠ ['s', 't', 'o', 'p'] ∧
  mPause line = none ∧ mWrite line = none ∧ mRead line = none ∧
  mAsk line = none ∧ mSqrt line = none ∧ mAbs line = none ∧
  mPow line = none ∧ mRandom line = none ∧
  (mCallArgs line).all (fun p => decide (String.mk p.1 ∈ callGuard)) = true ∧
  (mBareWord line).all (fun n => decide (String.mk n ∈ bareGuard)) = true

/-- The keywords of the claim about the call-rule guard, except "a"
(which the source's guard list at 215 does not contain). -/
def amendedCallKeywords : List String :=
  ["is", "becomes", "say", "print", "return", "if", "for", "while",
   "repeat", "pause", "write", "to", "otherwise", "skip", "stop"]

/-! ## Helper lemmas -/

/-! ## Block-delimiter balance (claim C1) -/

/-- A character that is not a block delimiter. -/
def braceOK (c : Char) : Bool := !(c == openBrace || c == closeBrace)

/-- A character list free of block delimiters. -/
def braceFree (l : List Char) : Bool := l.all braceOK

/-- The struct-header rule (src/server.js 86-92) fires on this line
while the translator is already inside a struct body: the previous
struct is then never closed, because the header rule precedes the
close-at-dedent check and unconditionally opens a new struct. -/
def lineOpensStructInside (st : TState) (raw : List Char) : Bool :=
  let line := trimChars raw
  !(line.isEmpty || line.take 2 = ['/', '/'] || line.take 1 = ['#']) &&
    st.inStruct && !(mToStart line) && (mToFunc line).isNone &&
    (mStructHeader line).isSome

/-- No line of the input triggers the unclosed-struct overlap above,
along the actual translation trace. -/
def structSafeFold : TState → List (List Char) → Bool
  | _, [] => true
  | st, l :: ls =>
    !lineOpensStructInside st l && structSafeFold (processLine st l) ls

/-- The balance invariant maintained by the dispatch loop on brace-free
input: the struct list nets exactly the one open struct, the
declaration list nets at least the one open function, the body list
nets nonnegative, and every include directive has zero net. -/
def Inv (st : TState) : Prop :=
  linesNet st.structs = (if st.inStruct then 1 else 0) ∧
  (if st.inFunction then (1 : Int) else 0) ≤ linesNet st.declarations ∧
  0 ≤ linesNet st.bodyLines ∧
  ∀ s ∈ st.includes, lineNet s = 0

theorem foldl_add_lineNet (ls : List String) :
    ∀ a : Int, ls.foldl (fun d l => d + lineNet l) a = a + (ls.map lineNet).sum := by
  induction ls with
  | nil => intro a; simp
  | cons h t ih => intro a; simp [ih, add_assoc]

theorem linesNet_eq_sum (ls : List String) : linesNet ls = (ls.map lineNet).sum := by
  simpa using foldl_add_lineNet ls 0

theorem linesNet_append (xs ys : List String) :
    linesNet (xs ++ ys) = linesNet xs + linesNet ys := by
  simp [linesNet_eq_sum]

theorem lineNet_closer : lineNet "    \x7d" = -1 := by decide

theorem linesNet_replicate_closer (n : Nat) :
    linesNet (List.replicate n "    \x7d") = -(n : Int) := by
  induction n with
  | zero => simp [linesNet_eq_sum]
  | succ k ih =>
    simp only [List.replicate_succ, linesNet_eq_sum, List.map_cons, List.sum_cons,
      lineNet_closer] at ih ⊢
    omega

theorem length_logIdea_le {st : LedgerState}
    (h : st.ideaStream.length ≤ 500) (flow cpp : String) (success : Bool)
    (output ts : String) :
    (logIdea st flow cpp success output ts).ideaStream.length ≤ 500 := by
  simp only [logIdea]
  split <;> simp_all [List.length_tail]

theorem includes_pushTarget (b : Bool) (st : TState) (s : String) :
    (pushTarget b st s).includes = st.includes := by
  unfold pushTarget; split <;> rfl

theorem nodup_addInclude {st : TState} (h : st.includes.Nodup) (i : String) :
    (addInclude st i).includes.Nodup := by
  unfold addInclude
  split
  · exact h
  · rename_i hm
    simp [List.nodup_append, h, List.disjoint_singleton, hm]

theorem nodup_lastRules {st : TState} (h : st.includes.Nodup) (b : Bool)
    (line : List Char) : (lastRules b st line).includes.Nodup := by
  unfold lastRules
  repeat' split
  all_goals simp_all [includes_pushTarget]

theorem nodup_fallthroughAfterGeneric {st : TState} (h : st.includes.Nodup)
    (b : Bool) (line : List Char) :
    (fallthroughAfterGeneric b st line).includes.Nodup := by
  unfold fallthroughAfterGeneric
  repeat' split
  all_goals
    first
      | exact nodup_lastRules h b line
      | simp_all [includes_pushTarget, nodup_addInclude]

theorem nodup_dispatchStmt {st : TState} (h : st.includes.Nodup) (b : Bool)
    (line : List Char) : (dispatchStmt b st line).includes.Nodup := by
  unfold dispatchStmt
  repeat' split
  all_goals
    first
      | exact nodup_fallthroughAfterGeneric h b line
      | simp_all [includes_pushTarget]

theorem nodup_methodPhase {st : TState} (h : st.includes.Nodup) (b : Bool)
    (line : List Char) : (methodPhase b st line).includes.Nodup := by
  unfold methodPhase
  split
  · exact h
  · exact nodup_dispatchStmt h b line

theorem nodup_structPhase {st : TState} (h : st.includes.Nodup) (b : Bool)
    (line : List Char) (indent : Nat) :
    (structPhase b st line indent).includes.Nodup := by
  unfold structPhase
  repeat' split
  all_goals
    first
      | exact h
      | (refine nodup_methodPhase ?_ b line; exact h)

theorem nodup_processLine {st : TState} (h : st.includes.Nodup)
    (raw : List Char) : (processLine st raw).includes.Nodup := by
  unfold processLine
  simp only []
  repeat' split
  all_goals
    first
      | exact h
      | (refine nodup_structPhase ?_ _ _ _; exact h)

theorem nodup_runTranslate (lines : List (List Char)) :
    (runTranslate lines).includes.Nodup := by
  have main : ∀ st : TState, st.includes.Nodup →
      (lines.foldl processLine st).includes.Nodup := by
    induction lines with
    | nil => intro st h; exact h
    | cons l ls ih => intro st h; exact ih _ (nodup_processLine h l)
  have base : initState.includes.Nodup := by decide
  have hN := main initState base
  unfold runTranslate finishTranslate
  simp only []
  repeat' split
  all_goals exact hN

/-! ## Theorems for the claims -/

/-- C10: closeBlocks is append-only: its output is exactly the input
list, unchanged and in order, followed by max(0, d) closing-delimiter
lines "    \x7d" where d sums each line's open-brace count minus
close-brace count; when d is negative nothing is appended and the net
depth of the output remains negative. -/
theorem closeBlocks_append_only (ls : List String) :
    closeBlocks ls =
      ls ++ List.replicate (max ((ls.map lineNet).sum) 0).toNat "    \x7d" ∧
    ((ls.map lineNet).sum < 0 →
      closeBlocks ls = ls ∧ linesNet (closeBlocks ls) < 0) := by
  constructor
  · unfold closeBlocks
    rw [linesNet_eq_sum]
    congr 2
    omega
  · intro hneg
    have hz : ((ls.map lineNet).sum).toNat = 0 := by omega
    have heq : closeBlocks ls = ls := by
      unfold closeBlocks
      rw [linesNet_eq_sum, hz]
      simp
    refine ⟨heq, ?_⟩
    rw [heq, linesNet_eq_sum]
    exact hneg

/-- Witness for C10 at the concrete input ["\x7d"] (net depth -1). -/
theorem closeBlocks_append_only_witness :
    closeBlocks ["\x7d"] = ["\x7d"] ∧ linesNet (closeBlocks ["\x7d"]) < 0 :=
  (closeBlocks_append_only ["\x7d"]).2 (by decide)

/-- C6: after any sequence of logIdea calls the ledger holds at most 500
entries; an append onto a full ledger of 500 entries removes exactly
the oldest entry, keeping all others in order followed by the new
entry (whose fields are exactly the logged data); in general every
append preserves the existing entries as a suffix of old-entries ++
new-entry, so entries are never mutated after insertion. -/
theorem ledger_bounded_fifo :
    (∀ inputs : List JobInput, (logIdeaAll inputs).ideaStream.length ≤ 500) ∧
    (∀ (st : LedgerState) (flow cpp : String) (success : Bool) (output ts : String),
      st.ideaStream.length = 500 →
      (logIdea st flow cpp success output ts).ideaStream =
        st.ideaStream.tail ++
          [{ id := st.compilationCount + 1, flow := flow, cpp := cpp,
             success := success, output := output, timestamp := ts }]) ∧
    (∀ (st : LedgerState) (flow cpp : String) (success : Bool) (output ts : String),
      (logIdea st flow cpp success output ts).ideaStream.IsSuffix
        (st.ideaStream ++
          [{ id := st.compilationCount + 1, flow := flow, cpp := cpp,
             success := success, output := output, timestamp := ts }])) := by
  refine ⟨?_, ?_, ?_⟩
  · intro inputs
    have : ∀ st : LedgerState, st.ideaStream.length ≤ 500 →
        (inputs.foldl
          (fun st i => logIdea st i.flow i.cpp i.success i.output i.timestamp)
          st).ideaStream.length ≤ 500 := by
      induction inputs with
      | nil => intro st h; exact h
      | cons x xs ih =>
        intro st h
        exact ih _ (length_logIdea_le h x.flow x.cpp x.success x.output x.timestamp)
    exact this initLedger (by simp [initLedger])
  · intro st flow cpp success output ts hfull
    simp only [logIdea]
    have hlen : (st.ideaStream ++
        [{ id := st.compilationCount + 1, flow := flow, cpp := cpp,
           success := success, output := output,
           timestamp := ts : Idea }]).length = 501 := by
      simp [hfull]
    rw [hlen]
    norm_num
    obtain ⟨hd, tl, hstream⟩ : ∃ hd tl, st.ideaStream = hd :: tl := by
      rcases hs : st.ideaStream with _ | ⟨a, b⟩
      · rw [hs] at hfull; simp at hfull
      · exact ⟨a, b, rfl⟩
    rw [hstream]
    simp
  · intro st flow cpp success output ts
    simp only [logIdea]
    split
    · exact (List.tail_suffix _)
    · exact List.suffix_refl _

/-- Witness for C6: appending to a concrete full ledger of 500 entries
evicts exactly the oldest entry. -/
theorem ledger_bounded_fifo_witness :
    (({ ideaStream :=
          List.replicate 500
            { id := 0, flow := "", cpp := "", success := false,
              output := "", timestamp := "" },
        compilationCount := 7 } : LedgerState).ideaStream.length = 500) ∧
    (logIdea
        { ideaStream :=
            List.replicate 500
              { id := 0, flow := "", cpp := "", success := false,
                output := "", timestamp := "" },
          compilationCount := 7 } "f" "c" true "o" "t").ideaStream =
      (List.replicate 500
        ({ id := 0, flow := "", cpp := "", success := false,
           output := "", timestamp := "" } : Idea)).tail ++
        [{ id := 8, flow := "f", cpp := "c", success := true,
           output := "o", timestamp := "t" }] := by
  refine ⟨by rw [List.length_replicate], ?_⟩
  exact ledger_bounded_fifo.2.1 _ "f" "c" true "o" "t" (by rw [List.length_replicate])

/-- C9: compileAndRun is a total function into a success-flag/output
record; a missing toolchain short-circuits to success=false with the
unavailability payload, every thrown step (write, compile, run —
including timeouts) yields success=false with the diagnostic text
(stderr if nonempty, else stdout if nonempty, else the message), and
the success path returns the captured stdout. -/
theorem compileAndRun_spec (tc : Toolchain) (src : String) :
    (tc.gxxFound = false →
      compileAndRun tc src =
        { success := false, output := "[runtime unavailable: g++ not found]" }) ∧
    (∀ e, tc.gxxFound = true → tc.writeStep = some e →
      compileAndRun tc src = { success := false, output := diagnosticText e }) ∧
    (∀ e, tc.gxxFound = true → tc.writeStep = none → tc.compileStep = some e →
      compileAndRun tc src = { success := false, output := diagnosticText e }) ∧
    (∀ e, tc.gxxFound = true → tc.writeStep = none → tc.compileStep = none →
      tc.runStep = .failed e →
      compileAndRun tc src = { success := false, output := diagnosticText e }) ∧
    (∀ out, tc.gxxFound = true → tc.writeStep = none → tc.compileStep = none →
      tc.runStep = .finished out →
      compileAndRun tc src =
        { success := true, output := if out = "" then "(no output)" else out }) := by
  refine ⟨?_, ?_, ?_, ?_, ?_⟩
  · intro h1
    unfold compileAndRun
    simp [h1]
  · intro e h1 h2
    unfold compileAndRun
    simp [h1, h2]
  · intro e h1 h2 h3
    unfold compileAndRun
    simp [h1, h2, h3]
  · intro e h1 h2 h3 h4
    unfold compileAndRun
    simp [h1, h2, h3, h4]
  · intro out h1 h2 h3 h4
    unfold compileAndRun
    simp [h1, h2, h3, h4]

/-- Witness for C9 at a concrete failing toolchain. -/
theorem compileAndRun_spec_witness :
    compileAndRun
        { gxxFound := true, writeStep := none,
          compileStep := some { stderrText := "boom", stdoutText := "", message := "m" },
          runStep := .finished "" } "int main()" =
      { success := false, output := "boom" } := by
  have h := (compileAndRun_spec
    { gxxFound := true, writeStep := none,
      compileStep := some { stderrText := "boom", stdoutText := "", message := "m" },
      runStep := .finished "" } "int main()").2.2.1
    { stderrText := "boom", stdoutText := "", message := "m" } rfl rfl rfl
  simpa [diagnosticText] using h

/-- C7: the generated source is a pure, deterministic function of the
input text: in any two global server states (ledger contents, counters,
driver index), identical input text produces byte-identical generated
source, because the translator reads no module-level mutable state. -/
theorem translate_pure (g₁ g₂ : GlobalState) (s : String) :
    generatedCpp g₁ s = generatedCpp g₂ s := rfl

/-- C8: the output of translateFlowToCpp is the newline-join of, in
order: the include directives (a deduplicated list — shown Nodup — in
first-insertion order by construction), a blank, the fixed phi comment,
a blank, the struct definitions, the reconciled declarations, the entry
point header, the reconciled body, the success return, and the closing
delimiter. -/
theorem translate_assembly (s : String) :
    translateFlowToCpp s =
      String.intercalate "\n"
        ((translationState s).includes ++ ["", "// φ = 1.618033988749895", ""] ++
          (if (translationState s).structs.isEmpty then []
           else (translationState s).structs) ++
          (if (closeBlocks (translationState s).declarations).isEmpty then []
           else closeBlocks (translationState s).declarations) ++
          ["int main() \x7b"] ++ closeBlocks (translationState s).bodyLines ++
          ["    return 0;", "\x7d"]) ∧
    (translationState s).includes.Nodup := by
  exact ⟨rfl, nodup_runTranslate _⟩

/-- C2: translateFlowToCpp is total by construction (it is a Lean
function on all input strings); every non-blank, non-comment line that
no consuming pattern rule matches — and that triggers no
dedent-activated function or struct close — is emitted as a single
comment line containing the original trimmed text, appended to the
captured target list, with the rest of the translation state
unchanged. -/
theorem unmatched_line_comment (st : TState) (raw : List Char)
    (hne : trimChars raw ≠ [])
    (hnc : (trimChars raw).take 2 ≠ ['/', '/'])
    (hnh : (trimChars raw).take 1 ≠ ['#'])
    (hnr : NoRuleMatches st.inStruct (trimChars raw))
    (hded : ¬(st.inFunction = true ∧ (raw.takeWhile isWsChar).length = 0 ∧
        trimChars raw ≠ [] ∧ (trimChars raw).take 3 ≠ ['t', 'o', ' ']))
    (hsc : ¬(st.inStruct = true ∧ (raw.takeWhile isWsChar).length = 0)) :
    processLine st raw =
      pushTarget st.inFunction st
        ("    // [flow] " ++ String.mk (trimChars raw)) := by
  obtain ⟨hToStart, hToFunc, hSH, hSF, hSM, hSayS, hSayQ, hSayE, hPrS, hPrE,
    hAS, hAQ, hAF, hAI, hAB, hAV, hAM, hAG, hBec, hRet, hRetB, hIf, hOIf, hOth,
    hFR, hFI, hRep, hWh, hSkip, hStop, hPau, hWr, hRd, hAsk, hSq, hAb, hPw, hRnd,
    hCall, hBare⟩ := hnr
  unfold processLine
  simp only []
  split
  · rename_i hskip
    exfalso
    simp only [Bool.or_eq_true, List.isEmpty_iff, decide_eq_true_eq] at hskip
    tauto
  · split
    · rename_i htostart
      exact absurd htostart (by simp [hToStart])
    · split
      · rename_i name args heq
        rw [hToFunc] at heq
        exact absurd heq (by simp)
      · have hfall : ∀ b,
            fallthroughAfterGeneric b st (trimChars raw) =
              pushTarget b st ("    // [flow] " ++ String.mk (trimChars raw)) := by
          intro b
          have hlast : lastRules b st (trimChars raw) =
              pushTarget b st ("    // [flow] " ++ String.mk (trimChars raw)) := by
            unfold lastRules
            rcases hB : mBareWord (trimChars raw) with _ | n
            · simp only []
            · rw [hB] at hBare
              simp only [Option.all_some, decide_eq_true_eq] at hBare
              simp only [hB, if_pos hBare]
          unfold fallthroughAfterGeneric
          rw [hBec, hRet]
          simp only []
          rw [if_neg hRetB, hIf, hOIf]
          simp only []
          rw [if_neg hOth, hFR, hFI, hRep, hWh]
          simp only []
          rw [if_neg hSkip, if_neg hStop, hPau, hWr, hRd, hAsk, hSq, hAb, hPw, hRnd]
          simp only []
          rcases hC : mCallArgs (trimChars raw) with _ | ⟨n, v⟩
          · exact hlast
          · rw [hC] at hCall
            simp only [Option.all_some, decide_eq_true_eq] at hCall
            simp only [if_pos hCall]
            exact hlast
        unfold structPhase
        rw [hSH]
        simp only []
        have hfield : (if st.inStruct = true then mStructField (trimChars raw)
            else none) = none := by
          by_cases hst : st.inStruct = true
          · simp [hst, hSF hst]
          · simp [hst]
        rw [hfield]
        simp only []
        simp only [if_neg hsc]
        unfold methodPhase
        rw [hSM]
        simp only []
        unfold dispatchStmt
        rw [hSayS, hSayQ, hSayE, hPrS, hPrE, hAS, hAQ, hAF, hAI, hAB, hAV, hAM]
        simp only []
        rcases hG : mAssignGeneric (trimChars raw) with _ | ⟨n, v⟩
        · exact hfall _
        · rw [hG] at hAG
          simp only [Option.all_some, decide_eq_true_eq] at hAG
          simp only [if_pos hAG]
          exact hfall _

/-- Witness for C2: a concrete line no rule matches, in the default
state, becomes exactly the passthrough comment. -/
theorem unmatched_line_comment_witness :
    processLine initState "@@ ???".data =
      pushTarget initState.inFunction initState
        ("    // [flow] " ++ String.mk (trimChars "@@ ???".data)) := by
  refine unmatched_line_comment initState "@@ ???".data ?_ ?_ ?_ ?_ ?_ ?_
  · decide
  · decide
  · decide
  · unfold NoRuleMatches
    refine ⟨?_, ?_, ?_, ?_, ?_, ?_, ?_, ?_, ?_, ?_, ?_, ?_, ?_, ?_, ?_, ?_,
      ?_, ?_, ?_, ?_, ?_, ?_, ?_, ?_, ?_, ?_, ?_, ?_, ?_, ?_, ?_, ?_, ?_, ?_,
      ?_, ?_, ?_, ?_, ?_, ?_⟩ <;> decide
  · decide
  · decide

/-- C4 (amended): for every reserved keyword in the claim's list except
"a", the space-separated call rule never captures a line whose first
word is that keyword: whenever the rule-214 matcher matches such a
line, the captured name is in the rule-215 guard list, so the rule
declines the line.  The keyword "a" is absent from the source's guard
list (see the counterexample) and is excluded here. -/
theorem call_rule_guard (k : String) (line n v : List Char)
    (hk : k ∈ amendedCallKeywords)
    (hw : line.takeWhile isWordChar = k.data)
    (hm : mCallArgs line = some (n, v)) :
    String.mk n ∈ callGuard := by
  simp only [amendedCallKeywords, List.mem_cons, List.not_mem_nil, or_false] at hk
  rcases hk with rfl | rfl | rfl | rfl | rfl | rfl | rfl | rfl | rfl | rfl | rfl
    | rfl | rfl | rfl | rfl <;>
  · unfold mCallArgs takeWordRun at hm
    rw [hw] at hm
    rcases hW : wsPlusRest (line.dropWhile isWordChar) with _ | w <;>
      simp [hW] at hm
    obtain ⟨hn, -⟩ := hm
    subst hn
    decide

/-- Counterexample for C4 as stated: "a" is one of the claim's reserved
keywords, yet the call rule captures the line "a hello": the guard list
does not contain "a", the matcher matches, and the full translator
emits the function-call statement for it. -/
theorem call_rule_guard_cex :
    mCallArgs "a hello".data = some ("a".data, "hello".data) ∧
    "a" ∉ callGuard ∧
    (runTranslate ["a hello".data]).bodyLines = ["    a(hello);"] := by
  refine ⟨by decide, by decide, by decide⟩

/-- Witness for C4 (amended) at keyword "say" on the line "say x y". -/
theorem call_rule_guard_witness :
    "say" ∈ amendedCallKeywords ∧
    "say x y".data.takeWhile isWordChar = "say".data ∧
    mCallArgs "say x y".data = some ("say".data, "x y".data) ∧
    String.mk "say".data ∈ callGuard := by
  refine ⟨by decide, by decide, by decide, ?_⟩
  exact call_rule_guard "say" "say x y".data "say".data "x y".data
    (by decide) (by decide) (by decide)

/-! ## Symbolic-identifier helpers for the binding rules -/

theorem char_word_not_ws {c : Char} (h : isWordChar c = true) :
    isWsChar c = false := by
  by_cases hw : isWsChar c = true
  · exfalso
    unfold isWsChar at hw
    simp only [Bool.or_eq_true, beq_iff_eq] at hw
    obtain ((((rfl | rfl) | rfl) | rfl) | rfl) | rfl := hw <;>
      exact absurd h (by decide)
  · simpa using hw

theorem string_data_ne {x k : String} (h : x ≠ k) : x.data ≠ k.data := by
  intro hd
  apply h
  cases x
  cases k
  exact congrArg String.mk (by simpa using hd)

theorem trimChars_eq_self {l : List Char} (h1 : l.dropWhile isWsChar = l)
    (h2 : l.reverse.dropWhile isWsChar = l.reverse) : trimChars l = l := by
  unfold trimChars
  rw [h1, h2, List.reverse_reverse]

theorem takeWhile_word_append (x : String) (suffix : List Char)
    (hxw : ∀ c ∈ x.data, isWordChar c = true)
    (hsfx : suffix.takeWhile isWordChar = []) :
    (x.data ++ suffix).takeWhile isWordChar = x.data := by
  rw [List.takeWhile_append_of_pos hxw, hsfx, List.append_nil]

theorem dropWhile_word_append (x : String) (suffix : List Char)
    (hxw : ∀ c ∈ x.data, isWordChar c = true)
    (hsfx : suffix.dropWhile isWordChar = suffix) :
    (x.data ++ suffix).dropWhile isWordChar = suffix := by
  rw [List.dropWhile_append_of_pos hxw, hsfx]

/-- A line made of word characters followed by a suffix whose first
character is already in place and whose final character is not
whitespace is unchanged by trimming. -/
theorem trimChars_word_append (x : String) (c : Char) (mid : List Char)
    (hx0 : x.data ≠ []) (hxw : ∀ e ∈ x.data, isWordChar e = true)
    (hlast : isWsChar ((c :: mid).getLastD ' ') = false) :
    trimChars (x.data ++ c :: mid) = x.data ++ c :: mid := by
  refine trimChars_eq_self ?_ ?_
  · rcases hx : x.data with _ | ⟨a, as⟩
    · exact absurd hx hx0
    · have ha : isWordChar a = true :=
        hxw a (by rw [hx]; exact List.mem_cons_self a as)
      rw [List.cons_append,
        List.dropWhile_cons_of_neg (by simp [char_word_not_ws ha])]
  · rcases hr : (c :: mid).reverse with _ | ⟨b, bs⟩
    · exact absurd hr (by simp)
    · have hb : (c :: mid).getLastD ' ' = b := by
        rw [List.getLastD_eq_getLast?, ← List.head?_reverse, hr]
        rfl
      have hbws : isWsChar b = false := by rw [← hb]; exact hlast
      rw [List.reverse_append, hr, List.cons_append,
        List.dropWhile_cons_of_neg (by simp [hbws])]

theorem lastColonSplit_eq_none {l : List Char} (h : ':' ∉ l) :
    lastColonSplit l = none := by
  induction l with
  | nil => rfl
  | cons c cs ih =>
    unfold lastColonSplit
    rw [ih (fun hm => h (List.mem_cons_of_mem c hm))]
    have hc : (c == ':') = false := by
      simp only [beq_eq_false_iff_ne, ne_eq]
      intro hcc
      exact h (by rw [hcc]; exact List.mem_cons_self ':' cs)
    simp [hc]

/-- In the fresh translation state, a line on which the entry-point,
function-definition, struct and method rules all fail goes straight to
the statement dispatch with the body as target. -/
theorem processLine_initState (L : List Char)
    (htrim : trimChars L = L) (hne : L ≠ [])
    (hnc : L.take 2 ≠ ['/', '/']) (hnh : L.take 1 ≠ ['#'])
    (h1 : mToStart L = false) (h2 : mToFunc L = none)
    (h3 : mStructHeader L = none) (h4 : mStructMethod L = none) :
    processLine initState L = dispatchStmt false initState L := by
  unfold processLine
  simp only [htrim]
  split
  · rename_i hskip
    exfalso
    simp only [Bool.or_eq_true, List.isEmpty_iff, decide_eq_true_eq] at hskip
    tauto
  split
  · rename_i hx
    rw [h1] at hx
    exact absurd hx (by simp)
  split
  · rename_i name args heq
    rw [h2] at heq
    exact absurd heq (by simp)
  simp [structPhase, methodPhase, h3, h4, initState]

/-- The leading-keyword matchers all decline a line whose first word is
an identifier different from their keywords. -/
theorem leading_kw_none (x : String) (suffix : List Char)
    (hxw : ∀ c ∈ x.data, isWordChar c = true)
    (hsfx : suffix.takeWhile isWordChar = [])
    (hto : x ≠ "to") (ha : x ≠ "a") (hsay : x ≠ "say") (hprint : x ≠ "print") :
    mToStart (x.data ++ suffix) = false ∧
    mToFunc (x.data ++ suffix) = none ∧
    mStructHeader (x.data ++ suffix) = none ∧
    mStructMethod (x.data ++ suffix) = none ∧
    mSayStr (x.data ++ suffix) = none ∧
    mSaySingle (x.data ++ suffix) = none ∧
    mSayExpr (x.data ++ suffix) = none ∧
    mPrintStr (x.data ++ suffix) = none ∧
    mPrintExpr (x.data ++ suffix) = none := by
  have hT := takeWhile_word_append x suffix hxw hsfx
  have hto2 : x.data ≠ ['t', 'o'] := fun hh => string_data_ne hto hh
  have ha2 : x.data ≠ ['a'] := fun hh => string_data_ne ha hh
  have hsay2 : x.data ≠ ['s', 'a', 'y'] := fun hh => string_data_ne hsay hh
  have hprint2 : x.data ≠ ['p', 'r', 'i', 'n', 't'] :=
    fun hh => string_data_ne hprint hh
  refine ⟨?_, ?_, ?_, ?_, ?_, ?_, ?_, ?_, ?_⟩ <;>
    simp [mToStart, mToFunc, mStructHeader, mStructMethod, mSayStr, mSaySingle,
      mSayExpr, mPrintStr, mPrintExpr, expectWordKw, hT, hto2, ha2, hsay2, hprint2]

/-- Evaluation of the shared binding-rule head on an identifier line. -/
theorem mNameIsRaw_eval (x : String) (rest : List Char)
    (hx0 : x.data ≠ []) (hxw : ∀ c ∈ x.data, isWordChar c = true)
    (hrest : rest.takeWhile isWordChar = []) :
    mNameIsRaw (x.data ++ ' ' :: 'i' :: 's' :: rest) = some (x.data, rest) := by
  have hT : (x.data ++ ' ' :: 'i' :: 's' :: rest).takeWhile isWordChar = x.data := by
    refine takeWhile_word_append x _ hxw ?_
    simp [isWordChar]
  have hD : (x.data ++ ' ' :: 'i' :: 's' :: rest).dropWhile isWordChar =
      ' ' :: 'i' :: 's' :: rest := by
    refine dropWhile_word_append x _ hxw ?_
    simp [isWordChar]
  have h1 : (' ' :: 'i' :: 's' :: rest).dropWhile isWsChar = 'i' :: 's' :: rest := by
    rw [List.dropWhile_cons_of_pos (by decide), List.dropWhile_cons_of_neg (by decide)]
  have hrd : rest.dropWhile isWordChar = rest := by
    cases rest with
    | nil => rfl
    | cons r rs =>
      refine List.dropWhile_cons_of_neg (fun hw => ?_)
      rw [List.takeWhile_cons_of_pos hw] at hrest
      exact absurd hrest (by simp)
  have h2 : ('i' :: 's' :: rest).takeWhile isWordChar = ['i', 's'] := by
    rw [List.takeWhile_cons_of_pos (by decide), List.takeWhile_cons_of_pos (by decide),
      hrest]
  have h3 : ('i' :: 's' :: rest).dropWhile isWordChar = rest := by
    rw [List.dropWhile_cons_of_pos (by decide), List.dropWhile_cons_of_pos (by decide),
      hrd]
  have e1 : takeWordRun (x.data ++ ' ' :: 'i' :: 's' :: rest) =
      some (x.data, ' ' :: 'i' :: 's' :: rest) := by
    unfold takeWordRun
    rw [hT, hD]
    simp [List.isEmpty_iff, hx0]
  have e2 : expectWs1 (' ' :: 'i' :: 's' :: rest) = some ('i' :: 's' :: rest) := by
    simp [expectWs1, headIsWs, isWsChar, h1]
  have e3 : expectWordKw ['i', 's'] ('i' :: 's' :: rest) = some rest := by
    simp [expectWordKw, h2, h3]
  simp [mNameIsRaw, e1, e2, e3]

theorem take_ne_of_head_word {x : String} (hx0 : x.data ≠ [])
    (hxw : ∀ c ∈ x.data, isWordChar c = true) (suffix : List Char) :
    (x.data ++ suffix).take 2 ≠ ['/', '/'] ∧ (x.data ++ suffix).take 1 ≠ ['#'] := by
  rcases hx : x.data with _ | ⟨a, as⟩
  · exact absurd hx hx0
  · have ha : isWordChar a = true :=
      hxw a (by rw [hx]; exact List.mem_cons_self a as)
    have ha2 : a ≠ '/' := fun h => by subst h; exact absurd ha (by decide)
    have ha3 : a ≠ '#' := fun h => by subst h; exact absurd ha (by decide)
    constructor <;>
    · rw [List.cons_append]
      simp [List.take_succ_cons, ha2, ha3]

theorem runTranslate_single (L : List Char) :
    runTranslate [L] = finishTranslate (processLine initState L) := rfl

theorem bodyLines_finishTranslate (st : TState) :
    (finishTranslate st).bodyLines = st.bodyLines := by
  by_cases h1 : st.inFunction = true <;> by_cases h2 : st.inStruct = true <;>
    simp [finishTranslate, h1, h2]

theorem mAssignStr_eval (x : String) (rest : List Char)
    (hx0 : x.data ≠ []) (hxw : ∀ c ∈ x.data, isWordChar c = true)
    (hrest : rest.takeWhile isWordChar = []) :
    mAssignStr (x.data ++ ' ' :: 'i' :: 's' :: rest) =
      (do
        let r ← expectWs1 rest
        let v ← quotedToEnd '\"' r
        some (x.data, v)) := by
  simp [mAssignStr, mNameIsRaw_eval x rest hx0 hxw hrest]

theorem mAssignSingle_eval (x : String) (rest : List Char)
    (hx0 : x.data ≠ []) (hxw : ∀ c ∈ x.data, isWordChar c = true)
    (hrest : rest.takeWhile isWordChar = []) :
    mAssignSingle (x.data ++ ' ' :: 'i' :: 's' :: rest) =
      (do
        let r ← expectWs1 rest
        let v ← quotedToEnd '\'' r
        some (x.data, v)) := by
  simp [mAssignSingle, mNameIsRaw_eval x rest hx0 hxw hrest]

theorem mAssignFloat_eval (x : String) (rest : List Char)
    (hx0 : x.data ≠ []) (hxw : ∀ c ∈ x.data, isWordChar c = true)
    (hrest : rest.takeWhile isWordChar = []) :
    mAssignFloat (x.data ++ ' ' :: 'i' :: 's' :: rest) =
      (do
        let r ← expectWs1 rest
        let (d1, r2) ← takeDigitRun r
        match r2 with
        | '.' :: r3 =>
          match takeDigitRun r3 with
          | some (d2, tail) =>
            if tail.isEmpty then some (x.data, d1 ++ '.' :: d2) else none
          | none => none
        | _ => none) := by
  simp [mAssignFloat, mNameIsRaw_eval x rest hx0 hxw hrest]

theorem mAssignInt_eval (x : String) (rest : List Char)
    (hx0 : x.data ≠ []) (hxw : ∀ c ∈ x.data, isWordChar c = true)
    (hrest : rest.takeWhile isWordChar = []) :
    mAssignInt (x.data ++ ' ' :: 'i' :: 's' :: rest) =
      (do
        let r ← expectWs1 rest
        match r with
        | '-' :: r2 =>
          if !r2.isEmpty && r2.all isDigitChar then some (x.data, r) else none
        | _ =>
          if !r.isEmpty && r.all isDigitChar then some (x.data, r) else none) := by
  simp [mAssignInt, mNameIsRaw_eval x rest hx0 hxw hrest]

theorem mAssignBool_eval (x : String) (rest : List Char)
    (hx0 : x.data ≠ []) (hxw : ∀ c ∈ x.data, isWordChar c = true)
    (hrest : rest.takeWhile isWordChar = []) :
    mAssignBool (x.data ++ ' ' :: 'i' :: 's' :: rest) =
      (do
        let r ← expectWs1 rest
        if r = ['y', 'e', 's'] then some (x.data, true)
        else if r = ['n', 'o'] then some (x.data, false)
        else none) := by
  simp [mAssignBool, mNameIsRaw_eval x rest hx0 hxw hrest]

theorem mAssignVec_eval (x : String) (rest : List Char)
    (hx0 : x.data ≠ []) (hxw : ∀ c ∈ x.data, isWordChar c = true)
    (hrest : rest.takeWhile isWordChar = []) :
    mAssignVec (x.data ++ ' ' :: 'i' :: 's' :: rest) =
      (do
        let r ← expectWs1 rest
        match r with
        | '[' :: tail =>
          if !tail.isEmpty && tail.getLastD ']' == ']' && !tail.dropLast.isEmpty then
            some (x.data, tail.dropLast)
          else none
        | _ => none) := by
  simp [mAssignVec, mNameIsRaw_eval x rest hx0 hxw hrest]

theorem mAssignMut_eval (x : String) (rest : List Char)
    (hx0 : x.data ≠ []) (hxw : ∀ c ∈ x.data, isWordChar c = true)
    (hrest : rest.takeWhile isWordChar = []) :
    mAssignMut (x.data ++ ' ' :: 'i' :: 's' :: rest) =
      (if (rest.takeWhile isWsChar).isEmpty then none
       else
        match lastCanChangeSplit (rest.dropWhile isWsChar) with
        | none => none
        | some cap =>
          if !cap.isEmpty then some (x.data, cap)
          else if 2 ≤ (rest.takeWhile isWsChar).length then
            some (x.data, [(rest.takeWhile isWsChar).getLastD ' '])
          else none) := by
  simp [mAssignMut, mNameIsRaw_eval x rest hx0 hxw hrest]

theorem bindingShapeStr (x : String) (hx0 : x.data ≠ [])
    (hxw : ∀ c ∈ x.data, isWordChar c = true)
    (hsay : x ≠ "say") (hprint : x ≠ "print") :
    (runTranslate
        [x.data ++ ' ' :: 'i' :: 's' :: ' ' :: '\"' :: 'a' :: '\"' :: []]).bodyLines =
      ["    const std::string " ++ x ++ " = \"" ++ "a" ++ "\";"] := by
  by_cases hto : x = "to"
  · subst hto; decide
  by_cases ha : x = "a"
  · subst ha; decide
  obtain ⟨k1, k2, k3, k4, k5, k6, k7, k8, k9⟩ :=
    leading_kw_none x (' ' :: 'i' :: 's' :: ' ' :: '\"' :: 'a' :: '\"' :: [])
      hxw (by decide) hto ha hsay hprint
  have htrim := trimChars_word_append x ' '
    ('i' :: 's' :: ' ' :: '\"' :: 'a' :: '\"' :: []) hx0 hxw (by decide)
  have hne : x.data ++ ' ' :: 'i' :: 's' :: ' ' :: '\"' :: 'a' :: '\"' :: [] ≠ [] := by
    intro hL
    rw [List.append_eq_nil] at hL
    exact absurd hL.1 hx0
  obtain ⟨hnc, hnh⟩ := take_ne_of_head_word hx0 hxw
    (' ' :: 'i' :: 's' :: ' ' :: '\"' :: 'a' :: '\"' :: [])
  rw [runTranslate_single,
    processLine_initState _ htrim hne hnc hnh k1 k2 k3 k4,
    bodyLines_finishTranslate]
  unfold dispatchStmt
  rw [k5, k6, k7, k8, k9]
  simp only []
  rw [mAssignStr_eval x (' ' :: '\"' :: 'a' :: '\"' :: []) hx0 hxw (by decide)]
  rfl


theorem bindingShapeSingle (x : String) (hx0 : x.data ≠ [])
    (hxw : ∀ c ∈ x.data, isWordChar c = true)
    (hsay : x ≠ "say") (hprint : x ≠ "print") :
    (runTranslate [x.data ++ ' ' :: 'i' :: 's' :: ' ' :: '\'' :: 'a' :: '\'' :: []]).bodyLines =
      ["    const std::string " ++ x ++ " = \"" ++ "a" ++ "\";"] := by
  by_cases hto : x = "to"
  · subst hto; decide
  by_cases ha : x = "a"
  · subst ha; decide
  obtain ⟨k1, k2, k3, k4, k5, k6, k7, k8, k9⟩ :=
    leading_kw_none x (' ' :: 'i' :: 's' :: ' ' :: '\'' :: 'a' :: '\'' :: [])
      hxw (by decide) hto ha hsay hprint
  have htrim := trimChars_word_append x ' '
    ('i' :: 's' :: ' ' :: '\'' :: 'a' :: '\'' :: []) hx0 hxw (by decide)
  have hne : x.data ++ ' ' :: 'i' :: 's' :: ' ' :: '\'' :: 'a' :: '\'' :: [] ≠ [] := by
    intro hL
    rw [List.append_eq_nil] at hL
    exact absurd hL.1 hx0
  obtain ⟨hnc, hnh⟩ := take_ne_of_head_word hx0 hxw
    (' ' :: 'i' :: 's' :: ' ' :: '\'' :: 'a' :: '\'' :: [])
  rw [runTranslate_single,
    processLine_initState _ htrim hne hnc hnh k1 k2 k3 k4,
    bodyLines_finishTranslate]
  unfold dispatchStmt
  rw [k5, k6, k7, k8, k9]
  simp only []
  rw [mAssignStr_eval x (' ' :: '\'' :: 'a' :: '\'' :: []) hx0 hxw (by decide),
    mAssignSingle_eval x (' ' :: '\'' :: 'a' :: '\'' :: []) hx0 hxw (by decide),
    mAssignFloat_eval x (' ' :: '\'' :: 'a' :: '\'' :: []) hx0 hxw (by decide),
    mAssignInt_eval x (' ' :: '\'' :: 'a' :: '\'' :: []) hx0 hxw (by decide),
    mAssignBool_eval x (' ' :: '\'' :: 'a' :: '\'' :: []) hx0 hxw (by decide),
    mAssignVec_eval x (' ' :: '\'' :: 'a' :: '\'' :: []) hx0 hxw (by decide),
    mAssignMut_eval x (' ' :: '\'' :: 'a' :: '\'' :: []) hx0 hxw (by decide)]
  rfl


theorem bindingShapeFloat (x : String) (hx0 : x.data ≠ [])
    (hxw : ∀ c ∈ x.data, isWordChar c = true)
    (hsay : x ≠ "say") (hprint : x ≠ "print") :
    (runTranslate [x.data ++ ' ' :: 'i' :: 's' :: ' ' :: '3' :: '.' :: '5' :: []]).bodyLines =
      ["    const double " ++ x ++ " = " ++ "3.5" ++ ";"] := by
  by_cases hto : x = "to"
  · subst hto; decide
  by_cases ha : x = "a"
  · subst ha; decide
  obtain ⟨k1, k2, k3, k4, k5, k6, k7, k8, k9⟩ :=
    leading_kw_none x (' ' :: 'i' :: 's' :: ' ' :: '3' :: '.' :: '5' :: [])
      hxw (by decide) hto ha hsay hprint
  have htrim := trimChars_word_append x ' '
    ('i' :: 's' :: ' ' :: '3' :: '.' :: '5' :: []) hx0 hxw (by decide)
  have hne : x.data ++ ' ' :: 'i' :: 's' :: ' ' :: '3' :: '.' :: '5' :: [] ≠ [] := by
    intro hL
    rw [List.append_eq_nil] at hL
    exact absurd hL.1 hx0
  obtain ⟨hnc, hnh⟩ := take_ne_of_head_word hx0 hxw
    (' ' :: 'i' :: 's' :: ' ' :: '3' :: '.' :: '5' :: [])
  rw [runTranslate_single,
    processLine_initState _ htrim hne hnc hnh k1 k2 k3 k4,
    bodyLines_finishTranslate]
  unfold dispatchStmt
  rw [k5, k6, k7, k8, k9]
  simp only []
  rw [mAssignStr_eval x (' ' :: '3' :: '.' :: '5' :: []) hx0 hxw (by decide),
    mAssignSingle_eval x (' ' :: '3' :: '.' :: '5' :: []) hx0 hxw (by decide),
    mAssignFloat_eval x (' ' :: '3' :: '.' :: '5' :: []) hx0 hxw (by decide),
    mAssignInt_eval x (' ' :: '3' :: '.' :: '5' :: []) hx0 hxw (by decide),
    mAssignBool_eval x (' ' :: '3' :: '.' :: '5' :: []) hx0 hxw (by decide),
    mAssignVec_eval x (' ' :: '3' :: '.' :: '5' :: []) hx0 hxw (by decide),
    mAssignMut_eval x (' ' :: '3' :: '.' :: '5' :: []) hx0 hxw (by decide)]
  rfl


theorem bindingShapeInt (x : String) (hx0 : x.data ≠ [])
    (hxw : ∀ c ∈ x.data, isWordChar c = true)
    (hsay : x ≠ "say") (hprint : x ≠ "print") :
    (runTranslate [x.data ++ ' ' :: 'i' :: 's' :: ' ' :: '3' :: []]).bodyLines =
      ["    const int " ++ x ++ " = " ++ "3" ++ ";"] := by
  by_cases hto : x = "to"
  · subst hto; decide
  by_cases ha : x = "a"
  · subst ha; decide
  obtain ⟨k1, k2, k3, k4, k5, k6, k7, k8, k9⟩ :=
    leading_kw_none x (' ' :: 'i' :: 's' :: ' ' :: '3' :: [])
      hxw (by decide) hto ha hsay hprint
  have htrim := trimChars_word_append x ' '
    ('i' :: 's' :: ' ' :: '3' :: []) hx0 hxw (by decide)
  have hne : x.data ++ ' ' :: 'i' :: 's' :: ' ' :: '3' :: [] ≠ [] := by
    intro hL
    rw [List.append_eq_nil] at hL
    exact absurd hL.1 hx0
  obtain ⟨hnc, hnh⟩ := take_ne_of_head_word hx0 hxw
    (' ' :: 'i' :: 's' :: ' ' :: '3' :: [])
  rw [runTranslate_single,
    processLine_initState _ htrim hne hnc hnh k1 k2 k3 k4,
    bodyLines_finishTranslate]
  unfold dispatchStmt
  rw [k5, k6, k7, k8, k9]
  simp only []
  rw [mAssignStr_eval x (' ' :: '3' :: []) hx0 hxw (by decide),
    mAssignSingle_eval x (' ' :: '3' :: []) hx0 hxw (by decide),
    mAssignFloat_eval x (' ' :: '3' :: []) hx0 hxw (by decide),
    mAssignInt_eval x (' ' :: '3' :: []) hx0 hxw (by decide),
    mAssignBool_eval x (' ' :: '3' :: []) hx0 hxw (by decide),
    mAssignVec_eval x (' ' :: '3' :: []) hx0 hxw (by decide),
    mAssignMut_eval x (' ' :: '3' :: []) hx0 hxw (by decide)]
  rfl


theorem bindingShapeNegInt (x : String) (hx0 : x.data ≠ [])
    (hxw : ∀ c ∈ x.data, isWordChar c = true)
    (hsay : x ≠ "say") (hprint : x ≠ "print") :
    (runTranslate [x.data ++ ' ' :: 'i' :: 's' :: ' ' :: '-' :: '7' :: []]).bodyLines =
      ["    const int " ++ x ++ " = " ++ "-7" ++ ";"] := by
  by_cases hto : x = "to"
  · subst hto; decide
  by_cases ha : x = "a"
  · subst ha; decide
  obtain ⟨k1, k2, k3, k4, k5, k6, k7, k8, k9⟩ :=
    leading_kw_none x (' ' :: 'i' :: 's' :: ' ' :: '-' :: '7' :: [])
      hxw (by decide) hto ha hsay hprint
  have htrim := trimChars_word_append x ' '
    ('i' :: 's' :: ' ' :: '-' :: '7' :: []) hx0 hxw (by decide)
  have hne : x.data ++ ' ' :: 'i' :: 's' :: ' ' :: '-' :: '7' :: [] ≠ [] := by
    intro hL
    rw [List.append_eq_nil] at hL
    exact absurd hL.1 hx0
  obtain ⟨hnc, hnh⟩ := take_ne_of_head_word hx0 hxw
    (' ' :: 'i' :: 's' :: ' ' :: '-' :: '7' :: [])
  rw [runTranslate_single,
    processLine_initState _ htrim hne hnc hnh k1 k2 k3 k4,
    bodyLines_finishTranslate]
  unfold dispatchStmt
  rw [k5, k6, k7, k8, k9]
  simp only []
  rw [mAssignStr_eval x (' ' :: '-' :: '7' :: []) hx0 hxw (by decide),
    mAssignSingle_eval x (' ' :: '-' :: '7' :: []) hx0 hxw (by decide),
    mAssignFloat_eval x (' ' :: '-' :: '7' :: []) hx0 hxw (by decide),
    mAssignInt_eval x (' ' :: '-' :: '7' :: []) hx0 hxw (by decide),
    mAssignBool_eval x (' ' :: '-' :: '7' :: []) hx0 hxw (by decide),
    mAssignVec_eval x (' ' :: '-' :: '7' :: []) hx0 hxw (by decide),
    mAssignMut_eval x (' ' :: '-' :: '7' :: []) hx0 hxw (by decide)]
  rfl


theorem bindingShapeYes (x : String) (hx0 : x.data ≠ [])
    (hxw : ∀ c ∈ x.data, isWordChar c = true)
    (hsay : x ≠ "say") (hprint : x ≠ "print") :
    (runTranslate [x.data ++ ' ' :: 'i' :: 's' :: ' ' :: 'y' :: 'e' :: 's' :: []]).bodyLines =
      ["    const bool " ++ x ++ " = " ++ "true" ++ ";"] := by
  by_cases hto : x = "to"
  · subst hto; decide
  by_cases ha : x = "a"
  · subst ha; decide
  obtain ⟨k1, k2, k3, k4, k5, k6, k7, k8, k9⟩ :=
    leading_kw_none x (' ' :: 'i' :: 's' :: ' ' :: 'y' :: 'e' :: 's' :: [])
      hxw (by decide) hto ha hsay hprint
  have htrim := trimChars_word_append x ' '
    ('i' :: 's' :: ' ' :: 'y' :: 'e' :: 's' :: []) hx0 hxw (by decide)
  have hne : x.data ++ ' ' :: 'i' :: 's' :: ' ' :: 'y' :: 'e' :: 's' :: [] ≠ [] := by
    intro hL
    rw [List.append_eq_nil] at hL
    exact absurd hL.1 hx0
  obtain ⟨hnc, hnh⟩ := take_ne_of_head_word hx0 hxw
    (' ' :: 'i' :: 's' :: ' ' :: 'y' :: 'e' :: 's' :: [])
  rw [runTranslate_single,
    processLine_initState _ htrim hne hnc hnh k1 k2 k3 k4,
    bodyLines_finishTranslate]
  unfold dispatchStmt
  rw [k5, k6, k7, k8, k9]
  simp only []
  rw [mAssignStr_eval x (' ' :: 'y' :: 'e' :: 's' :: []) hx0 hxw (by decide),
    mAssignSingle_eval x (' ' :: 'y' :: 'e' :: 's' :: []) hx0 hxw (by decide),
    mAssignFloat_eval x (' ' :: 'y' :: 'e' :: 's' :: []) hx0 hxw (by decide),
    mAssignInt_eval x (' ' :: 'y' :: 'e' :: 's' :: []) hx0 hxw (by decide),
    mAssignBool_eval x (' ' :: 'y' :: 'e' :: 's' :: []) hx0 hxw (by decide),
    mAssignVec_eval x (' ' :: 'y' :: 'e' :: 's' :: []) hx0 hxw (by decide),
    mAssignMut_eval x (' ' :: 'y' :: 'e' :: 's' :: []) hx0 hxw (by decide)]
  rfl


theorem bindingShapeNo (x : String) (hx0 : x.data ≠ [])
    (hxw : ∀ c ∈ x.data, isWordChar c = true)
    (hsay : x ≠ "say") (hprint : x ≠ "print") :
    (runTranslate [x.data ++ ' ' :: 'i' :: 's' :: ' ' :: 'n' :: 'o' :: []]).bodyLines =
      ["    const bool " ++ x ++ " = " ++ "false" ++ ";"] := by
  by_cases hto : x = "to"
  · subst hto; decide
  by_cases ha : x = "a"
  · subst ha; decide
  obtain ⟨k1, k2, k3, k4, k5, k6, k7, k8, k9⟩ :=
    leading_kw_none x (' ' :: 'i' :: 's' :: ' ' :: 'n' :: 'o' :: [])
      hxw (by decide) hto ha hsay hprint
  have htrim := trimChars_word_append x ' '
    ('i' :: 's' :: ' ' :: 'n' :: 'o' :: []) hx0 hxw (by decide)
  have hne : x.data ++ ' ' :: 'i' :: 's' :: ' ' :: 'n' :: 'o' :: [] ≠ [] := by
    intro hL
    rw [List.append_eq_nil] at hL
    exact absurd hL.1 hx0
  obtain ⟨hnc, hnh⟩ := take_ne_of_head_word hx0 hxw
    (' ' :: 'i' :: 's' :: ' ' :: 'n' :: 'o' :: [])
  rw [runTranslate_single,
    processLine_initState _ htrim hne hnc hnh k1 k2 k3 k4,
    bodyLines_finishTranslate]
  unfold dispatchStmt
  rw [k5, k6, k7, k8, k9]
  simp only []
  rw [mAssignStr_eval x (' ' :: 'n' :: 'o' :: []) hx0 hxw (by decide),
    mAssignSingle_eval x (' ' :: 'n' :: 'o' :: []) hx0 hxw (by decide),
    mAssignFloat_eval x (' ' :: 'n' :: 'o' :: []) hx0 hxw (by decide),
    mAssignInt_eval x (' ' :: 'n' :: 'o' :: []) hx0 hxw (by decide),
    mAssignBool_eval x (' ' :: 'n' :: 'o' :: []) hx0 hxw (by decide),
    mAssignVec_eval x (' ' :: 'n' :: 'o' :: []) hx0 hxw (by decide),
    mAssignMut_eval x (' ' :: 'n' :: 'o' :: []) hx0 hxw (by decide)]
  rfl


theorem bindingShapeVec (x : String) (hx0 : x.data ≠ [])
    (hxw : ∀ c ∈ x.data, isWordChar c = true)
    (hsay : x ≠ "say") (hprint : x ≠ "print") :
    (runTranslate [x.data ++ ' ' :: 'i' :: 's' :: ' ' :: '[' :: '1' :: ',' :: '2' :: ',' :: '3' :: ']' :: []]).bodyLines =
      ["    const auto " ++ x ++ " = std::vector<int>\x7b" ++ "1,2,3" ++ "\x7d;"] := by
  by_cases hto : x = "to"
  · subst hto; decide
  by_cases ha : x = "a"
  · subst ha; decide
  obtain ⟨k1, k2, k3, k4, k5, k6, k7, k8, k9⟩ :=
    leading_kw_none x (' ' :: 'i' :: 's' :: ' ' :: '[' :: '1' :: ',' :: '2' :: ',' :: '3' :: ']' :: [])
      hxw (by decide) hto ha hsay hprint
  have htrim := trimChars_word_append x ' '
    ('i' :: 's' :: ' ' :: '[' :: '1' :: ',' :: '2' :: ',' :: '3' :: ']' :: []) hx0 hxw (by decide)
  have hne : x.data ++ ' ' :: 'i' :: 's' :: ' ' :: '[' :: '1' :: ',' :: '2' :: ',' :: '3' :: ']' :: [] ≠ [] := by
    intro hL
    rw [List.append_eq_nil] at hL
    exact absurd hL.1 hx0
  obtain ⟨hnc, hnh⟩ := take_ne_of_head_word hx0 hxw
    (' ' :: 'i' :: 's' :: ' ' :: '[' :: '1' :: ',' :: '2' :: ',' :: '3' :: ']' :: [])
  rw [runTranslate_single,
    processLine_initState _ htrim hne hnc hnh k1 k2 k3 k4,
    bodyLines_finishTranslate]
  unfold dispatchStmt
  rw [k5, k6, k7, k8, k9]
  simp only []
  rw [mAssignStr_eval x (' ' :: '[' :: '1' :: ',' :: '2' :: ',' :: '3' :: ']' :: []) hx0 hxw (by decide),
    mAssignSingle_eval x (' ' :: '[' :: '1' :: ',' :: '2' :: ',' :: '3' :: ']' :: []) hx0 hxw (by decide),
    mAssignFloat_eval x (' ' :: '[' :: '1' :: ',' :: '2' :: ',' :: '3' :: ']' :: []) hx0 hxw (by decide),
    mAssignInt_eval x (' ' :: '[' :: '1' :: ',' :: '2' :: ',' :: '3' :: ']' :: []) hx0 hxw (by decide),
    mAssignBool_eval x (' ' :: '[' :: '1' :: ',' :: '2' :: ',' :: '3' :: ']' :: []) hx0 hxw (by decide),
    mAssignVec_eval x (' ' :: '[' :: '1' :: ',' :: '2' :: ',' :: '3' :: ']' :: []) hx0 hxw (by decide),
    mAssignMut_eval x (' ' :: '[' :: '1' :: ',' :: '2' :: ',' :: '3' :: ']' :: []) hx0 hxw (by decide)]
  rfl


theorem bindingShapeMutStr (x : String) (hx0 : x.data ≠ [])
    (hxw : ∀ c ∈ x.data, isWordChar c = true)
    (hsay : x ≠ "say") (hprint : x ≠ "print") :
    (runTranslate [x.data ++ ' ' :: 'i' :: 's' :: ' ' :: '\"' :: 'a' :: '\"' :: ',' :: ' ' :: 'c' :: 'a' :: 'n' :: ' ' :: 'c' :: 'h' :: 'a' :: 'n' :: 'g' :: 'e' :: []]).bodyLines =
      ["    auto " ++ x ++ " = " ++ translateExpr "\"a\"" ++ ";"] := by
  by_cases hto : x = "to"
  · subst hto; decide
  by_cases ha : x = "a"
  · subst ha; decide
  obtain ⟨k1, k2, k3, k4, k5, k6, k7, k8, k9⟩ :=
    leading_kw_none x (' ' :: 'i' :: 's' :: ' ' :: '\"' :: 'a' :: '\"' :: ',' :: ' ' :: 'c' :: 'a' :: 'n' :: ' ' :: 'c' :: 'h' :: 'a' :: 'n' :: 'g' :: 'e' :: [])
      hxw (by decide) hto ha hsay hprint
  have htrim := trimChars_word_append x ' '
    ('i' :: 's' :: ' ' :: '\"' :: 'a' :: '\"' :: ',' :: ' ' :: 'c' :: 'a' :: 'n' :: ' ' :: 'c' :: 'h' :: 'a' :: 'n' :: 'g' :: 'e' :: []) hx0 hxw (by decide)
  have hne : x.data ++ ' ' :: 'i' :: 's' :: ' ' :: '\"' :: 'a' :: '\"' :: ',' :: ' ' :: 'c' :: 'a' :: 'n' :: ' ' :: 'c' :: 'h' :: 'a' :: 'n' :: 'g' :: 'e' :: [] ≠ [] := by
    intro hL
    rw [List.append_eq_nil] at hL
    exact absurd hL.1 hx0
  obtain ⟨hnc, hnh⟩ := take_ne_of_head_word hx0 hxw
    (' ' :: 'i' :: 's' :: ' ' :: '\"' :: 'a' :: '\"' :: ',' :: ' ' :: 'c' :: 'a' :: 'n' :: ' ' :: 'c' :: 'h' :: 'a' :: 'n' :: 'g' :: 'e' :: [])
  rw [runTranslate_single,
    processLine_initState _ htrim hne hnc hnh k1 k2 k3 k4,
    bodyLines_finishTranslate]
  unfold dispatchStmt
  rw [k5, k6, k7, k8, k9]
  simp only []
  rw [mAssignStr_eval x (' ' :: '\"' :: 'a' :: '\"' :: ',' :: ' ' :: 'c' :: 'a' :: 'n' :: ' ' :: 'c' :: 'h' :: 'a' :: 'n' :: 'g' :: 'e' :: []) hx0 hxw (by decide),
    mAssignSingle_eval x (' ' :: '\"' :: 'a' :: '\"' :: ',' :: ' ' :: 'c' :: 'a' :: 'n' :: ' ' :: 'c' :: 'h' :: 'a' :: 'n' :: 'g' :: 'e' :: []) hx0 hxw (by decide),
    mAssignFloat_eval x (' ' :: '\"' :: 'a' :: '\"' :: ',' :: ' ' :: 'c' :: 'a' :: 'n' :: ' ' :: 'c' :: 'h' :: 'a' :: 'n' :: 'g' :: 'e' :: []) hx0 hxw (by decide),
    mAssignInt_eval x (' ' :: '\"' :: 'a' :: '\"' :: ',' :: ' ' :: 'c' :: 'a' :: 'n' :: ' ' :: 'c' :: 'h' :: 'a' :: 'n' :: 'g' :: 'e' :: []) hx0 hxw (by decide),
    mAssignBool_eval x (' ' :: '\"' :: 'a' :: '\"' :: ',' :: ' ' :: 'c' :: 'a' :: 'n' :: ' ' :: 'c' :: 'h' :: 'a' :: 'n' :: 'g' :: 'e' :: []) hx0 hxw (by decide),
    mAssignVec_eval x (' ' :: '\"' :: 'a' :: '\"' :: ',' :: ' ' :: 'c' :: 'a' :: 'n' :: ' ' :: 'c' :: 'h' :: 'a' :: 'n' :: 'g' :: 'e' :: []) hx0 hxw (by decide),
    mAssignMut_eval x (' ' :: '\"' :: 'a' :: '\"' :: ',' :: ' ' :: 'c' :: 'a' :: 'n' :: ' ' :: 'c' :: 'h' :: 'a' :: 'n' :: 'g' :: 'e' :: []) hx0 hxw (by decide)]
  rfl


theorem bindingShapeMutSingle (x : String) (hx0 : x.data ≠ [])
    (hxw : ∀ c ∈ x.data, isWordChar c = true)
    (hsay : x ≠ "say") (hprint : x ≠ "print") :
    (runTranslate [x.data ++ ' ' :: 'i' :: 's' :: ' ' :: '\'' :: 'a' :: '\'' :: ',' :: ' ' :: 'c' :: 'a' :: 'n' :: ' ' :: 'c' :: 'h' :: 'a' :: 'n' :: 'g' :: 'e' :: []]).bodyLines =
      ["    auto " ++ x ++ " = " ++ translateExpr "'a'" ++ ";"] := by
  by_cases hto : x = "to"
  · subst hto; decide
  by_cases ha : x = "a"
  · subst ha; decide
  obtain ⟨k1, k2, k3, k4, k5, k6, k7, k8, k9⟩ :=
    leading_kw_none x (' ' :: 'i' :: 's' :: ' ' :: '\'' :: 'a' :: '\'' :: ',' :: ' ' :: 'c' :: 'a' :: 'n' :: ' ' :: 'c' :: 'h' :: 'a' :: 'n' :: 'g' :: 'e' :: [])
      hxw (by decide) hto ha hsay hprint
  have htrim := trimChars_word_append x ' '
    ('i' :: 's' :: ' ' :: '\'' :: 'a' :: '\'' :: ',' :: ' ' :: 'c' :: 'a' :: 'n' :: ' ' :: 'c' :: 'h' :: 'a' :: 'n' :: 'g' :: 'e' :: []) hx0 hxw (by decide)
  have hne : x.data ++ ' ' :: 'i' :: 's' :: ' ' :: '\'' :: 'a' :: '\'' :: ',' :: ' ' :: 'c' :: 'a' :: 'n' :: ' ' :: 'c' :: 'h' :: 'a' :: 'n' :: 'g' :: 'e' :: [] ≠ [] := by
    intro hL
    rw [List.append_eq_nil] at hL
    exact absurd hL.1 hx0
  obtain ⟨hnc, hnh⟩ := take_ne_of_head_word hx0 hxw
    (' ' :: 'i' :: 's' :: ' ' :: '\'' :: 'a' :: '\'' :: ',' :: ' ' :: 'c' :: 'a' :: 'n' :: ' ' :: 'c' :: 'h' :: 'a' :: 'n' :: 'g' :: 'e' :: [])
  rw [runTranslate_single,
    processLine_initState _ htrim hne hnc hnh k1 k2 k3 k4,
    bodyLines_finishTranslate]
  unfold dispatchStmt
  rw [k5, k6, k7, k8, k9]
  simp only []
  rw [mAssignStr_eval x (' ' :: '\'' :: 'a' :: '\'' :: ',' :: ' ' :: 'c' :: 'a' :: 'n' :: ' ' :: 'c' :: 'h' :: 'a' :: 'n' :: 'g' :: 'e' :: []) hx0 hxw (by decide),
    mAssignSingle_eval x (' ' :: '\'' :: 'a' :: '\'' :: ',' :: ' ' :: 'c' :: 'a' :: 'n' :: ' ' :: 'c' :: 'h' :: 'a' :: 'n' :: 'g' :: 'e' :: []) hx0 hxw (by decide),
    mAssignFloat_eval x (' ' :: '\'' :: 'a' :: '\'' :: ',' :: ' ' :: 'c' :: 'a' :: 'n' :: ' ' :: 'c' :: 'h' :: 'a' :: 'n' :: 'g' :: 'e' :: []) hx0 hxw (by decide),
    mAssignInt_eval x (' ' :: '\'' :: 'a' :: '\'' :: ',' :: ' ' :: 'c' :: 'a' :: 'n' :: ' ' :: 'c' :: 'h' :: 'a' :: 'n' :: 'g' :: 'e' :: []) hx0 hxw (by decide),
    mAssignBool_eval x (' ' :: '\'' :: 'a' :: '\'' :: ',' :: ' ' :: 'c' :: 'a' :: 'n' :: ' ' :: 'c' :: 'h' :: 'a' :: 'n' :: 'g' :: 'e' :: []) hx0 hxw (by decide),
    mAssignVec_eval x (' ' :: '\'' :: 'a' :: '\'' :: ',' :: ' ' :: 'c' :: 'a' :: 'n' :: ' ' :: 'c' :: 'h' :: 'a' :: 'n' :: 'g' :: 'e' :: []) hx0 hxw (by decide),
    mAssignMut_eval x (' ' :: '\'' :: 'a' :: '\'' :: ',' :: ' ' :: 'c' :: 'a' :: 'n' :: ' ' :: 'c' :: 'h' :: 'a' :: 'n' :: 'g' :: 'e' :: []) hx0 hxw (by decide)]
  rfl


theorem bindingShapeMutFloat (x : String) (hx0 : x.data ≠ [])
    (hxw : ∀ c ∈ x.data, isWordChar c = true)
    (hsay : x ≠ "say") (hprint : x ≠ "print") :
    (runTranslate [x.data ++ ' ' :: 'i' :: 's' :: ' ' :: '3' :: '.' :: '5' :: ',' :: ' ' :: 'c' :: 'a' :: 'n' :: ' ' :: 'c' :: 'h' :: 'a' :: 'n' :: 'g' :: 'e' :: []]).bodyLines =
      ["    auto " ++ x ++ " = " ++ translateExpr "3.5" ++ ";"] := by
  by_cases hto : x = "to"
  · subst hto; decide
  by_cases ha : x = "a"
  · subst ha; decide
  obtain ⟨k1, k2, k3, k4, k5, k6, k7, k8, k9⟩ :=
    leading_kw_none x (' ' :: 'i' :: 's' :: ' ' :: '3' :: '.' :: '5' :: ',' :: ' ' :: 'c' :: 'a' :: 'n' :: ' ' :: 'c' :: 'h' :: 'a' :: 'n' :: 'g' :: 'e' :: [])
      hxw (by decide) hto ha hsay hprint
  have htrim := trimChars_word_append x ' '
    ('i' :: 's' :: ' ' :: '3' :: '.' :: '5' :: ',' :: ' ' :: 'c' :: 'a' :: 'n' :: ' ' :: 'c' :: 'h' :: 'a' :: 'n' :: 'g' :: 'e' :: []) hx0 hxw (by decide)
  have hne : x.data ++ ' ' :: 'i' :: 's' :: ' ' :: '3' :: '.' :: '5' :: ',' :: ' ' :: 'c' :: 'a' :: 'n' :: ' ' :: 'c' :: 'h' :: 'a' :: 'n' :: 'g' :: 'e' :: [] ≠ [] := by
    intro hL
    rw [List.append_eq_nil] at hL
    exact absurd hL.1 hx0
  obtain ⟨hnc, hnh⟩ := take_ne_of_head_word hx0 hxw
    (' ' :: 'i' :: 's' :: ' ' :: '3' :: '.' :: '5' :: ',' :: ' ' :: 'c' :: 'a' :: 'n' :: ' ' :: 'c' :: 'h' :: 'a' :: 'n' :: 'g' :: 'e' :: [])
  rw [runTranslate_single,
    processLine_initState _ htrim hne hnc hnh k1 k2 k3 k4,
    bodyLines_finishTranslate]
  unfold dispatchStmt
  rw [k5, k6, k7, k8, k9]
  simp only []
  rw [mAssignStr_eval x (' ' :: '3' :: '.' :: '5' :: ',' :: ' ' :: 'c' :: 'a' :: 'n' :: ' ' :: 'c' :: 'h' :: 'a' :: 'n' :: 'g' :: 'e' :: []) hx0 hxw (by decide),
    mAssignSingle_eval x (' ' :: '3' :: '.' :: '5' :: ',' :: ' ' :: 'c' :: 'a' :: 'n' :: ' ' :: 'c' :: 'h' :: 'a' :: 'n' :: 'g' :: 'e' :: []) hx0 hxw (by decide),
    mAssignFloat_eval x (' ' :: '3' :: '.' :: '5' :: ',' :: ' ' :: 'c' :: 'a' :: 'n' :: ' ' :: 'c' :: 'h' :: 'a' :: 'n' :: 'g' :: 'e' :: []) hx0 hxw (by decide),
    mAssignInt_eval x (' ' :: '3' :: '.' :: '5' :: ',' :: ' ' :: 'c' :: 'a' :: 'n' :: ' ' :: 'c' :: 'h' :: 'a' :: 'n' :: 'g' :: 'e' :: []) hx0 hxw (by decide),
    mAssignBool_eval x (' ' :: '3' :: '.' :: '5' :: ',' :: ' ' :: 'c' :: 'a' :: 'n' :: ' ' :: 'c' :: 'h' :: 'a' :: 'n' :: 'g' :: 'e' :: []) hx0 hxw (by decide),
    mAssignVec_eval x (' ' :: '3' :: '.' :: '5' :: ',' :: ' ' :: 'c' :: 'a' :: 'n' :: ' ' :: 'c' :: 'h' :: 'a' :: 'n' :: 'g' :: 'e' :: []) hx0 hxw (by decide),
    mAssignMut_eval x (' ' :: '3' :: '.' :: '5' :: ',' :: ' ' :: 'c' :: 'a' :: 'n' :: ' ' :: 'c' :: 'h' :: 'a' :: 'n' :: 'g' :: 'e' :: []) hx0 hxw (by decide)]
  rfl


theorem bindingShapeMutInt (x : String) (hx0 : x.data ≠ [])
    (hxw : ∀ c ∈ x.data, isWordChar c = true)
    (hsay : x ≠ "say") (hprint : x ≠ "print") :
    (runTranslate [x.data ++ ' ' :: 'i' :: 's' :: ' ' :: '3' :: ',' :: ' ' :: 'c' :: 'a' :: 'n' :: ' ' :: 'c' :: 'h' :: 'a' :: 'n' :: 'g' :: 'e' :: []]).bodyLines =
      ["    auto " ++ x ++ " = " ++ translateExpr "3" ++ ";"] := by
  by_cases hto : x = "to"
  · subst hto; decide
  by_cases ha : x = "a"
  · subst ha; decide
  obtain ⟨k1, k2, k3, k4, k5, k6, k7, k8, k9⟩ :=
    leading_kw_none x (' ' :: 'i' :: 's' :: ' ' :: '3' :: ',' :: ' ' :: 'c' :: 'a' :: 'n' :: ' ' :: 'c' :: 'h' :: 'a' :: 'n' :: 'g' :: 'e' :: [])
      hxw (by decide) hto ha hsay hprint
  have htrim := trimChars_word_append x ' '
    ('i' :: 's' :: ' ' :: '3' :: ',' :: ' ' :: 'c' :: 'a' :: 'n' :: ' ' :: 'c' :: 'h' :: 'a' :: 'n' :: 'g' :: 'e' :: []) hx0 hxw (by decide)
  have hne : x.data ++ ' ' :: 'i' :: 's' :: ' ' :: '3' :: ',' :: ' ' :: 'c' :: 'a' :: 'n' :: ' ' :: 'c' :: 'h' :: 'a' :: 'n' :: 'g' :: 'e' :: [] ≠ [] := by
    intro hL
    rw [List.append_eq_nil] at hL
    exact absurd hL.1 hx0
  obtain ⟨hnc, hnh⟩ := take_ne_of_head_word hx0 hxw
    (' ' :: 'i' :: 's' :: ' ' :: '3' :: ',' :: ' ' :: 'c' :: 'a' :: 'n' :: ' ' :: 'c' :: 'h' :: 'a' :: 'n' :: 'g' :: 'e' :: [])
  rw [runTranslate_single,
    processLine_initState _ htrim hne hnc hnh k1 k2 k3 k4,
    bodyLines_finishTranslate]
  unfold dispatchStmt
  rw [k5, k6, k7, k8, k9]
  simp only []
  rw [mAssignStr_eval x (' ' :: '3' :: ',' :: ' ' :: 'c' :: 'a' :: 'n' :: ' ' :: 'c' :: 'h' :: 'a' :: 'n' :: 'g' :: 'e' :: []) hx0 hxw (by decide),
    mAssignSingle_eval x (' ' :: '3' :: ',' :: ' ' :: 'c' :: 'a' :: 'n' :: ' ' :: 'c' :: 'h' :: 'a' :: 'n' :: 'g' :: 'e' :: []) hx0 hxw (by decide),
    mAssignFloat_eval x (' ' :: '3' :: ',' :: ' ' :: 'c' :: 'a' :: 'n' :: ' ' :: 'c' :: 'h' :: 'a' :: 'n' :: 'g' :: 'e' :: []) hx0 hxw (by decide),
    mAssignInt_eval x (' ' :: '3' :: ',' :: ' ' :: 'c' :: 'a' :: 'n' :: ' ' :: 'c' :: 'h' :: 'a' :: 'n' :: 'g' :: 'e' :: []) hx0 hxw (by decide),
    mAssignBool_eval x (' ' :: '3' :: ',' :: ' ' :: 'c' :: 'a' :: 'n' :: ' ' :: 'c' :: 'h' :: 'a' :: 'n' :: 'g' :: 'e' :: []) hx0 hxw (by decide),
    mAssignVec_eval x (' ' :: '3' :: ',' :: ' ' :: 'c' :: 'a' :: 'n' :: ' ' :: 'c' :: 'h' :: 'a' :: 'n' :: 'g' :: 'e' :: []) hx0 hxw (by decide),
    mAssignMut_eval x (' ' :: '3' :: ',' :: ' ' :: 'c' :: 'a' :: 'n' :: ' ' :: 'c' :: 'h' :: 'a' :: 'n' :: 'g' :: 'e' :: []) hx0 hxw (by decide)]
  rfl


theorem bindingShapeMutYes (x : String) (hx0 : x.data ≠ [])
    (hxw : ∀ c ∈ x.data, isWordChar c = true)
    (hsay : x ≠ "say") (hprint : x ≠ "print") :
    (runTranslate [x.data ++ ' ' :: 'i' :: 's' :: ' ' :: 'y' :: 'e' :: 's' :: ',' :: ' ' :: 'c' :: 'a' :: 'n' :: ' ' :: 'c' :: 'h' :: 'a' :: 'n' :: 'g' :: 'e' :: []]).bodyLines =
      ["    auto " ++ x ++ " = " ++ translateExpr "yes" ++ ";"] := by
  by_cases hto : x = "to"
  · subst hto; decide
  by_cases ha : x = "a"
  · subst ha; decide
  obtain ⟨k1, k2, k3, k4, k5, k6, k7, k8, k9⟩ :=
    leading_kw_none x (' ' :: 'i' :: 's' :: ' ' :: 'y' :: 'e' :: 's' :: ',' :: ' ' :: 'c' :: 'a' :: 'n' :: ' ' :: 'c' :: 'h' :: 'a' :: 'n' :: 'g' :: 'e' :: [])
      hxw (by decide) hto ha hsay hprint
  have htrim := trimChars_word_append x ' '
    ('i' :: 's' :: ' ' :: 'y' :: 'e' :: 's' :: ',' :: ' ' :: 'c' :: 'a' :: 'n' :: ' ' :: 'c' :: 'h' :: 'a' :: 'n' :: 'g' :: 'e' :: []) hx0 hxw (by decide)
  have hne : x.data ++ ' ' :: 'i' :: 's' :: ' ' :: 'y' :: 'e' :: 's' :: ',' :: ' ' :: 'c' :: 'a' :: 'n' :: ' ' :: 'c' :: 'h' :: 'a' :: 'n' :: 'g' :: 'e' :: [] ≠ [] := by
    intro hL
    rw [List.append_eq_nil] at hL
    exact absurd hL.1 hx0
  obtain ⟨hnc, hnh⟩ := take_ne_of_head_word hx0 hxw
    (' ' :: 'i' :: 's' :: ' ' :: 'y' :: 'e' :: 's' :: ',' :: ' ' :: 'c' :: 'a' :: 'n' :: ' ' :: 'c' :: 'h' :: 'a' :: 'n' :: 'g' :: 'e' :: [])
  rw [runTranslate_single,
    processLine_initState _ htrim hne hnc hnh k1 k2 k3 k4,
    bodyLines_finishTranslate]
  unfold dispatchStmt
  rw [k5, k6, k7, k8, k9]
  simp only []
  rw [mAssignStr_eval x (' ' :: 'y' :: 'e' :: 's' :: ',' :: ' ' :: 'c' :: 'a' :: 'n' :: ' ' :: 'c' :: 'h' :: 'a' :: 'n' :: 'g' :: 'e' :: []) hx0 hxw (by decide),
    mAssignSingle_eval x (' ' :: 'y' :: 'e' :: 's' :: ',' :: ' ' :: 'c' :: 'a' :: 'n' :: ' ' :: 'c' :: 'h' :: 'a' :: 'n' :: 'g' :: 'e' :: []) hx0 hxw (by decide),
    mAssignFloat_eval x (' ' :: 'y' :: 'e' :: 's' :: ',' :: ' ' :: 'c' :: 'a' :: 'n' :: ' ' :: 'c' :: 'h' :: 'a' :: 'n' :: 'g' :: 'e' :: []) hx0 hxw (by decide),
    mAssignInt_eval x (' ' :: 'y' :: 'e' :: 's' :: ',' :: ' ' :: 'c' :: 'a' :: 'n' :: ' ' :: 'c' :: 'h' :: 'a' :: 'n' :: 'g' :: 'e' :: []) hx0 hxw (by decide),
    mAssignBool_eval x (' ' :: 'y' :: 'e' :: 's' :: ',' :: ' ' :: 'c' :: 'a' :: 'n' :: ' ' :: 'c' :: 'h' :: 'a' :: 'n' :: 'g' :: 'e' :: []) hx0 hxw (by decide),
    mAssignVec_eval x (' ' :: 'y' :: 'e' :: 's' :: ',' :: ' ' :: 'c' :: 'a' :: 'n' :: ' ' :: 'c' :: 'h' :: 'a' :: 'n' :: 'g' :: 'e' :: []) hx0 hxw (by decide),
    mAssignMut_eval x (' ' :: 'y' :: 'e' :: 's' :: ',' :: ' ' :: 'c' :: 'a' :: 'n' :: ' ' :: 'c' :: 'h' :: 'a' :: 'n' :: 'g' :: 'e' :: []) hx0 hxw (by decide)]
  rfl


theorem bindingShapeMutNo (x : String) (hx0 : x.data ≠ [])
    (hxw : ∀ c ∈ x.data, isWordChar c = true)
    (hsay : x ≠ "say") (hprint : x ≠ "print") :
    (runTranslate [x.data ++ ' ' :: 'i' :: 's' :: ' ' :: 'n' :: 'o' :: ',' :: ' ' :: 'c' :: 'a' :: 'n' :: ' ' :: 'c' :: 'h' :: 'a' :: 'n' :: 'g' :: 'e' :: []]).bodyLines =
      ["    auto " ++ x ++ " = " ++ translateExpr "no" ++ ";"] := by
  by_cases hto : x = "to"
  · subst hto; decide
  by_cases ha : x = "a"
  · subst ha; decide
  obtain ⟨k1, k2, k3, k4, k5, k6, k7, k8, k9⟩ :=
    leading_kw_none x (' ' :: 'i' :: 's' :: ' ' :: 'n' :: 'o' :: ',' :: ' ' :: 'c' :: 'a' :: 'n' :: ' ' :: 'c' :: 'h' :: 'a' :: 'n' :: 'g' :: 'e' :: [])
      hxw (by decide) hto ha hsay hprint
  have htrim := trimChars_word_append x ' '
    ('i' :: 's' :: ' ' :: 'n' :: 'o' :: ',' :: ' ' :: 'c' :: 'a' :: 'n' :: ' ' :: 'c' :: 'h' :: 'a' :: 'n' :: 'g' :: 'e' :: []) hx0 hxw (by decide)
  have hne : x.data ++ ' ' :: 'i' :: 's' :: ' ' :: 'n' :: 'o' :: ',' :: ' ' :: 'c' :: 'a' :: 'n' :: ' ' :: 'c' :: 'h' :: 'a' :: 'n' :: 'g' :: 'e' :: [] ≠ [] := by
    intro hL
    rw [List.append_eq_nil] at hL
    exact absurd hL.1 hx0
  obtain ⟨hnc, hnh⟩ := take_ne_of_head_word hx0 hxw
    (' ' :: 'i' :: 's' :: ' ' :: 'n' :: 'o' :: ',' :: ' ' :: 'c' :: 'a' :: 'n' :: ' ' :: 'c' :: 'h' :: 'a' :: 'n' :: 'g' :: 'e' :: [])
  rw [runTranslate_single,
    processLine_initState _ htrim hne hnc hnh k1 k2 k3 k4,
    bodyLines_finishTranslate]
  unfold dispatchStmt
  rw [k5, k6, k7, k8, k9]
  simp only []
  rw [mAssignStr_eval x (' ' :: 'n' :: 'o' :: ',' :: ' ' :: 'c' :: 'a' :: 'n' :: ' ' :: 'c' :: 'h' :: 'a' :: 'n' :: 'g' :: 'e' :: []) hx0 hxw (by decide),
    mAssignSingle_eval x (' ' :: 'n' :: 'o' :: ',' :: ' ' :: 'c' :: 'a' :: 'n' :: ' ' :: 'c' :: 'h' :: 'a' :: 'n' :: 'g' :: 'e' :: []) hx0 hxw (by decide),
    mAssignFloat_eval x (' ' :: 'n' :: 'o' :: ',' :: ' ' :: 'c' :: 'a' :: 'n' :: ' ' :: 'c' :: 'h' :: 'a' :: 'n' :: 'g' :: 'e' :: []) hx0 hxw (by decide),
    mAssignInt_eval x (' ' :: 'n' :: 'o' :: ',' :: ' ' :: 'c' :: 'a' :: 'n' :: ' ' :: 'c' :: 'h' :: 'a' :: 'n' :: 'g' :: 'e' :: []) hx0 hxw (by decide),
    mAssignBool_eval x (' ' :: 'n' :: 'o' :: ',' :: ' ' :: 'c' :: 'a' :: 'n' :: ' ' :: 'c' :: 'h' :: 'a' :: 'n' :: 'g' :: 'e' :: []) hx0 hxw (by decide),
    mAssignVec_eval x (' ' :: 'n' :: 'o' :: ',' :: ' ' :: 'c' :: 'a' :: 'n' :: ' ' :: 'c' :: 'h' :: 'a' :: 'n' :: 'g' :: 'e' :: []) hx0 hxw (by decide),
    mAssignMut_eval x (' ' :: 'n' :: 'o' :: ',' :: ' ' :: 'c' :: 'a' :: 'n' :: ' ' :: 'c' :: 'h' :: 'a' :: 'n' :: 'g' :: 'e' :: []) hx0 hxw (by decide)]
  rfl


theorem bindingShapeMutVec (x : String) (hx0 : x.data ≠ [])
    (hxw : ∀ c ∈ x.data, isWordChar c = true)
    (hsay : x ≠ "say") (hprint : x ≠ "print") :
    (runTranslate [x.data ++ ' ' :: 'i' :: 's' :: ' ' :: '[' :: '1' :: ',' :: '2' :: ',' :: '3' :: ']' :: ',' :: ' ' :: 'c' :: 'a' :: 'n' :: ' ' :: 'c' :: 'h' :: 'a' :: 'n' :: 'g' :: 'e' :: []]).bodyLines =
      ["    auto " ++ x ++ " = " ++ translateExpr "[1,2,3]" ++ ";"] := by
  by_cases hto : x = "to"
  · subst hto; decide
  by_cases ha : x = "a"
  · subst ha; decide
  obtain ⟨k1, k2, k3, k4, k5, k6, k7, k8, k9⟩ :=
    leading_kw_none x (' ' :: 'i' :: 's' :: ' ' :: '[' :: '1' :: ',' :: '2' :: ',' :: '3' :: ']' :: ',' :: ' ' :: 'c' :: 'a' :: 'n' :: ' ' :: 'c' :: 'h' :: 'a' :: 'n' :: 'g' :: 'e' :: [])
      hxw (by decide) hto ha hsay hprint
  have htrim := trimChars_word_append x ' '
    ('i' :: 's' :: ' ' :: '[' :: '1' :: ',' :: '2' :: ',' :: '3' :: ']' :: ',' :: ' ' :: 'c' :: 'a' :: 'n' :: ' ' :: 'c' :: 'h' :: 'a' :: 'n' :: 'g' :: 'e' :: []) hx0 hxw (by decide)
  have hne : x.data ++ ' ' :: 'i' :: 's' :: ' ' :: '[' :: '1' :: ',' :: '2' :: ',' :: '3' :: ']' :: ',' :: ' ' :: 'c' :: 'a' :: 'n' :: ' ' :: 'c' :: 'h' :: 'a' :: 'n' :: 'g' :: 'e' :: [] ≠ [] := by
    intro hL
    rw [List.append_eq_nil] at hL
    exact absurd hL.1 hx0
  obtain ⟨hnc, hnh⟩ := take_ne_of_head_word hx0 hxw
    (' ' :: 'i' :: 's' :: ' ' :: '[' :: '1' :: ',' :: '2' :: ',' :: '3' :: ']' :: ',' :: ' ' :: 'c' :: 'a' :: 'n' :: ' ' :: 'c' :: 'h' :: 'a' :: 'n' :: 'g' :: 'e' :: [])
  rw [runTranslate_single,
    processLine_initState _ htrim hne hnc hnh k1 k2 k3 k4,
    bodyLines_finishTranslate]
  unfold dispatchStmt
  rw [k5, k6, k7, k8, k9]
  simp only []
  rw [mAssignStr_eval x (' ' :: '[' :: '1' :: ',' :: '2' :: ',' :: '3' :: ']' :: ',' :: ' ' :: 'c' :: 'a' :: 'n' :: ' ' :: 'c' :: 'h' :: 'a' :: 'n' :: 'g' :: 'e' :: []) hx0 hxw (by decide),
    mAssignSingle_eval x (' ' :: '[' :: '1' :: ',' :: '2' :: ',' :: '3' :: ']' :: ',' :: ' ' :: 'c' :: 'a' :: 'n' :: ' ' :: 'c' :: 'h' :: 'a' :: 'n' :: 'g' :: 'e' :: []) hx0 hxw (by decide),
    mAssignFloat_eval x (' ' :: '[' :: '1' :: ',' :: '2' :: ',' :: '3' :: ']' :: ',' :: ' ' :: 'c' :: 'a' :: 'n' :: ' ' :: 'c' :: 'h' :: 'a' :: 'n' :: 'g' :: 'e' :: []) hx0 hxw (by decide),
    mAssignInt_eval x (' ' :: '[' :: '1' :: ',' :: '2' :: ',' :: '3' :: ']' :: ',' :: ' ' :: 'c' :: 'a' :: 'n' :: ' ' :: 'c' :: 'h' :: 'a' :: 'n' :: 'g' :: 'e' :: []) hx0 hxw (by decide),
    mAssignBool_eval x (' ' :: '[' :: '1' :: ',' :: '2' :: ',' :: '3' :: ']' :: ',' :: ' ' :: 'c' :: 'a' :: 'n' :: ' ' :: 'c' :: 'h' :: 'a' :: 'n' :: 'g' :: 'e' :: []) hx0 hxw (by decide),
    mAssignVec_eval x (' ' :: '[' :: '1' :: ',' :: '2' :: ',' :: '3' :: ']' :: ',' :: ' ' :: 'c' :: 'a' :: 'n' :: ' ' :: 'c' :: 'h' :: 'a' :: 'n' :: 'g' :: 'e' :: []) hx0 hxw (by decide),
    mAssignMut_eval x (' ' :: '[' :: '1' :: ',' :: '2' :: ',' :: '3' :: ']' :: ',' :: ' ' :: 'c' :: 'a' :: 'n' :: ' ' :: 'c' :: 'h' :: 'a' :: 'n' :: 'g' :: 'e' :: []) hx0 hxw (by decide)]
  rfl

/-- C3 (amended): for every identifier x other than the two output
keywords "say" and "print" (whose bare-expression output rules match
such lines first — see the counterexample), the literal-shape binding
rules emit exactly the claimed bindings: double- or single-quoted
string to a const std::string binding, digits-dot-digits to a const
double binding, an optionally signed integer to a const int binding,
yes/no to a const bool binding with the matching truth value, a
bracketed list to a const std::vector<int> binding, and appending
", can change" to any such right-hand side instead emits a mutable
auto binding whose right-hand side passes through the expression
rewriter. -/
theorem binding_shapes (x : String) (hx0 : x.data ≠ [])
    (hxw : ∀ c ∈ x.data, isWordChar c = true)
    (hsay : x ≠ "say") (hprint : x ≠ "print") :
    (runTranslate [(x ++ " is \"a\"").data]).bodyLines =
      ["    const std::string " ++ x ++ " = \"" ++ "a" ++ "\";"] ∧
    (runTranslate [(x ++ " is 'a'").data]).bodyLines =
      ["    const std::string " ++ x ++ " = \"" ++ "a" ++ "\";"] ∧
    (runTranslate [(x ++ " is 3.5").data]).bodyLines =
      ["    const double " ++ x ++ " = " ++ "3.5" ++ ";"] ∧
    (runTranslate [(x ++ " is 3").data]).bodyLines =
      ["    const int " ++ x ++ " = " ++ "3" ++ ";"] ∧
    (runTranslate [(x ++ " is -7").data]).bodyLines =
      ["    const int " ++ x ++ " = " ++ "-7" ++ ";"] ∧
    (runTranslate [(x ++ " is yes").data]).bodyLines =
      ["    const bool " ++ x ++ " = " ++ "true" ++ ";"] ∧
    (runTranslate [(x ++ " is no").data]).bodyLines =
      ["    const bool " ++ x ++ " = " ++ "false" ++ ";"] ∧
    (runTranslate [(x ++ " is [1,2,3]").data]).bodyLines =
      ["    const auto " ++ x ++ " = std::vector<int>\x7b" ++ "1,2,3" ++ "\x7d;"] ∧
    (runTranslate [(x ++ " is \"a\", can change").data]).bodyLines =
      ["    auto " ++ x ++ " = " ++ translateExpr "\"a\"" ++ ";"] ∧
    (runTranslate [(x ++ " is 'a', can change").data]).bodyLines =
      ["    auto " ++ x ++ " = " ++ translateExpr "'a'" ++ ";"] ∧
    (runTranslate [(x ++ " is 3.5, can change").data]).bodyLines =
      ["    auto " ++ x ++ " = " ++ translateExpr "3.5" ++ ";"] ∧
    (runTranslate [(x ++ " is 3, can change").data]).bodyLines =
      ["    auto " ++ x ++ " = " ++ translateExpr "3" ++ ";"] ∧
    (runTranslate [(x ++ " is yes, can change").data]).bodyLines =
      ["    auto " ++ x ++ " = " ++ translateExpr "yes" ++ ";"] ∧
    (runTranslate [(x ++ " is no, can change").data]).bodyLines =
      ["    auto " ++ x ++ " = " ++ translateExpr "no" ++ ";"] ∧
    (runTranslate [(x ++ " is [1,2,3], can change").data]).bodyLines =
      ["    auto " ++ x ++ " = " ++ translateExpr "[1,2,3]" ++ ";"] := by
  refine ⟨?_, ?_, ?_, ?_, ?_, ?_, ?_, ?_, ?_, ?_, ?_, ?_, ?_, ?_, ?_⟩
  · exact bindingShapeStr x hx0 hxw hsay hprint
  · exact bindingShapeSingle x hx0 hxw hsay hprint
  · exact bindingShapeFloat x hx0 hxw hsay hprint
  · exact bindingShapeInt x hx0 hxw hsay hprint
  · exact bindingShapeNegInt x hx0 hxw hsay hprint
  · exact bindingShapeYes x hx0 hxw hsay hprint
  · exact bindingShapeNo x hx0 hxw hsay hprint
  · exact bindingShapeVec x hx0 hxw hsay hprint
  · exact bindingShapeMutStr x hx0 hxw hsay hprint
  · exact bindingShapeMutSingle x hx0 hxw hsay hprint
  · exact bindingShapeMutFloat x hx0 hxw hsay hprint
  · exact bindingShapeMutInt x hx0 hxw hsay hprint
  · exact bindingShapeMutYes x hx0 hxw hsay hprint
  · exact bindingShapeMutNo x hx0 hxw hsay hprint
  · exact bindingShapeMutVec x hx0 hxw hsay hprint

/-- Counterexample for C3 as stated: for the identifier "say" the line
"say is yes" is captured by the bare-expression output rule before any
binding rule, producing an output statement (with a mangled
expression), not a const bool binding; likewise for "print". -/
theorem binding_shapes_cex :
    (runTranslate ["say is yes".data]).bodyLines =
      ["    std::cout << == true << std::endl;"] ∧
    (runTranslate ["say is yes".data]).bodyLines ≠
      ["    const bool say = true;"] ∧
    (runTranslate ["print is yes".data]).bodyLines =
      ["    std::cout << == true;"] := by
  refine ⟨by decide, by decide, by decide⟩

/-- Witness for C3 (amended) at the identifier "count". -/
theorem binding_shapes_witness :
    (runTranslate [("count" ++ " is yes").data]).bodyLines =
      ["    const bool " ++ "count" ++ " = " ++ "true" ++ ";"] :=
  (binding_shapes "count" (by decide) (by decide) (by decide)
    (by decide)).2.2.2.2.2.1

/-! ## Rewriter equations and commutation (grounding the
condition/expression rewriter comparison) -/

theorem substWordF_congr (kw rep : List Char) :
    ∀ (f1 f2 : Nat) (l : List Char), l.length ≤ f1 → l.length ≤ f2 →
      substWordF kw rep f1 l = substWordF kw rep f2 l := by
  intro f1
  induction f1 with
  | zero =>
    intro f2 l h1 h2
    have hl : l = [] := List.eq_nil_of_length_eq_zero (Nat.le_zero.mp h1)
    subst hl
    cases f2 <;> rfl
  | succ m ih =>
    intro f2 l h1 h2
    cases l with
    | nil => cases f2 <;> rfl
    | cons c cs =>
      cases f2 with
      | zero => simp at h2
      | succ m2 =>
        have hcs : cs.length ≤ m := by
          simp only [List.length_cons] at h1
          omega
        have hcs2 : cs.length ≤ m2 := by
          simp only [List.length_cons] at h2
          omega
        have hdrop : (cs.dropWhile isWordChar).length ≤ cs.length :=
          (List.dropWhile_sublist isWordChar).length_le
        simp only [substWordF]
        by_cases hw : isWordChar c = true
        · rw [if_pos hw, if_pos hw]
          congr 1
          exact ih m2 _ (le_trans hdrop hcs) (le_trans hdrop hcs2)
        · rw [if_neg hw, if_neg hw]
          congr 1
          exact ih m2 _ hcs hcs2

theorem substWord_cons_nonword (kw rep : List Char) {c : Char} (cs : List Char)
    (hc : isWordChar c = false) :
    substWord kw rep (c :: cs) = c :: substWord kw rep cs := by
  unfold substWord
  simp only [List.length_cons, substWordF]
  rw [if_neg (by simp [hc])]

theorem substWord_run (kw rep : List Char) {c : Char} (cs : List Char)
    (hc : isWordChar c = true) :
    substWord kw rep (c :: cs) =
      (if c :: cs.takeWhile isWordChar = kw then rep
       else c :: cs.takeWhile isWordChar) ++
        substWord kw rep (cs.dropWhile isWordChar) := by
  unfold substWord
  simp only [List.length_cons, substWordF]
  rw [if_pos hc]
  congr 1
  exact substWordF_congr kw rep cs.length _ _
    (List.dropWhile_sublist isWordChar).length_le
    (Nat.le_refl _)

theorem substNotF_congr :
    ∀ (f1 f2 : Nat) (l : List Char), l.length ≤ f1 → l.length ≤ f2 →
      substNotF f1 l = substNotF f2 l := by
  intro f1
  induction f1 with
  | zero =>
    intro f2 l h1 h2
    have hl : l = [] := List.eq_nil_of_length_eq_zero (Nat.le_zero.mp h1)
    subst hl
    cases f2 <;> rfl
  | succ m ih =>
    intro f2 l h1 h2
    cases l with
    | nil => cases f2 <;> rfl
    | cons c cs =>
      cases f2 with
      | zero => simp at h2
      | succ m2 =>
        have hcs : cs.length ≤ m := by
          simp only [List.length_cons] at h1
          omega
        have hcs2 : cs.length ≤ m2 := by
          simp only [List.length_cons] at h2
          omega
        have hdrop : (cs.dropWhile isWordChar).length ≤ cs.length :=
          (List.dropWhile_sublist isWordChar).length_le
        have hdrop2 : ((cs.dropWhile isWordChar).dropWhile isWsChar).length ≤
            cs.length :=
          le_trans (List.dropWhile_sublist isWsChar).length_le hdrop
        simp only [substNotF]
        by_cases hw : isWordChar c = true
        · rw [if_pos hw, if_pos hw]
          by_cases hfire : (c :: cs.takeWhile isWordChar = ['n', 'o', 't'] &&
              headIsWs (cs.dropWhile isWordChar)) = true
          · rw [if_pos hfire, if_pos hfire]
            congr 1
            exact ih m2 _ (le_trans hdrop2 hcs) (le_trans hdrop2 hcs2)
          · rw [if_neg hfire, if_neg hfire]
            congr 1
            exact ih m2 _ (le_trans hdrop hcs) (le_trans hdrop hcs2)
        · rw [if_neg hw, if_neg hw]
          congr 1
          exact ih m2 _ hcs hcs2

theorem substNot_cons_nonword {c : Char} (cs : List Char)
    (hc : isWordChar c = false) :
    substNot (c :: cs) = c :: substNot cs := by
  unfold substNot
  simp only [List.length_cons, substNotF]
  rw [if_neg (by simp [hc])]

theorem substNot_run_fire {c : Char} (cs : List Char) (hc : isWordChar c = true)
    (hkw : c :: cs.takeWhile isWordChar = ['n', 'o', 't'])
    (hws : headIsWs (cs.dropWhile isWordChar) = true) :
    substNot (c :: cs) =
      '!' :: substNot ((cs.dropWhile isWordChar).dropWhile isWsChar) := by
  unfold substNot
  simp only [List.length_cons, substNotF]
  rw [if_pos hc, if_pos (by rw [hkw, hws]; rfl)]
  congr 1
  exact substNotF_congr cs.length _ _
    (le_trans (List.dropWhile_sublist isWsChar).length_le
      (List.dropWhile_sublist isWordChar).length_le)
    (Nat.le_refl _)

theorem substNot_run_pass {c : Char} (cs : List Char) (hc : isWordChar c = true)
    (hno : (c :: cs.takeWhile isWordChar = ['n', 'o', 't'] &&
      headIsWs (cs.dropWhile isWordChar)) = false) :
    substNot (c :: cs) =
      (c :: cs.takeWhile isWordChar) ++ substNot (cs.dropWhile isWordChar) := by
  unfold substNot
  simp only [List.length_cons, substNotF]
  rw [if_pos hc, if_neg (by simp only [hno]; exact Bool.false_ne_true)]
  congr 1
  exact substNotF_congr cs.length _ _
    (List.dropWhile_sublist isWordChar).length_le
    (Nat.le_refl _)

theorem substIsNotF_congr :
    ∀ (f1 f2 : Nat) (l : List Char), l.length ≤ f1 → l.length ≤ f2 →
      substIsNotF f1 l = substIsNotF f2 l := by
  intro f1
  induction f1 with
  | zero =>
    intro f2 l h1 h2
    have hl : l = [] := List.eq_nil_of_length_eq_zero (Nat.le_zero.mp h1)
    subst hl
    cases f2 <;> rfl
  | succ m ih =>
    intro f2 l h1 h2
    cases l with
    | nil => cases f2 <;> rfl
    | cons c cs =>
      cases f2 with
      | zero => simp at h2
      | succ m2 =>
        have hcs : cs.length ≤ m := by
          simp only [List.length_cons] at h1
          omega
        have hcs2 : cs.length ≤ m2 := by
          simp only [List.length_cons] at h2
          omega
        have hdrop : (cs.dropWhile isWordChar).length ≤ cs.length :=
          (List.dropWhile_sublist isWordChar).length_le
        have hdrop3 :
            ((((cs.dropWhile isWordChar).dropWhile isWsChar).dropWhile
              isWordChar)).length ≤ cs.length :=
          le_trans (List.dropWhile_sublist isWordChar).length_le
            (le_trans (List.dropWhile_sublist isWsChar).length_le hdrop)
        simp only [substIsNotF]
        by_cases hw : isWordChar c = true
        · rw [if_pos hw, if_pos hw]
          by_cases hfire : (c :: cs.takeWhile isWordChar = ['i', 's'] &&
              headIsWs (cs.dropWhile isWordChar) &&
              ((cs.dropWhile isWordChar).dropWhile isWsChar).takeWhile isWordChar
                = ['n', 'o', 't']) = true
          · rw [if_pos hfire, if_pos hfire]
            congr 2
            exact ih m2 _ (le_trans hdrop3 hcs) (le_trans hdrop3 hcs2)
          · rw [if_neg hfire, if_neg hfire]
            congr 1
            exact ih m2 _ (le_trans hdrop hcs) (le_trans hdrop hcs2)
        · rw [if_neg hw, if_neg hw]
          congr 1
          exact ih m2 _ hcs hcs2

theorem substIsNot_cons_nonword {c : Char} (cs : List Char)
    (hc : isWordChar c = false) :
    substIsNot (c :: cs) = c :: substIsNot cs := by
  unfold substIsNot
  simp only [List.length_cons, substIsNotF]
  rw [if_neg (by simp [hc])]

theorem substIsNot_run_pass {c : Char} (cs : List Char)
    (hc : isWordChar c = true)
    (hno : (c :: cs.takeWhile isWordChar = ['i', 's'] &&
      headIsWs (cs.dropWhile isWordChar) &&
      ((cs.dropWhile isWordChar).dropWhile isWsChar).takeWhile isWordChar
        = ['n', 'o', 't']) = false) :
    substIsNot (c :: cs) =
      (c :: cs.takeWhile isWordChar) ++ substIsNot (cs.dropWhile isWordChar) := by
  unfold substIsNot
  simp only [List.length_cons, substIsNotF]
  rw [if_pos hc, if_neg (by simp only [hno]; exact Bool.false_ne_true)]
  congr 1
  exact substIsNotF_congr cs.length _ _
    (List.dropWhile_sublist isWordChar).length_le
    (Nat.le_refl _)

theorem head_neg_of_takeWhile_nil {p : Char → Bool} {c : Char} {cs : List Char}
    (h : (c :: cs).takeWhile p = []) : p c = false := by
  by_cases hc : p c = true
  · rw [List.takeWhile_cons_of_pos hc] at h
    exact absurd h (by simp)
  · simpa using hc

theorem dropWhile_eq_self_of_takeWhile_nil {p : Char → Bool} {l : List Char}
    (h : l.takeWhile p = []) : l.dropWhile p = l := by
  cases l with
  | nil => rfl
  | cons c cs =>
    rw [List.dropWhile_cons_of_neg (by simp [head_neg_of_takeWhile_nil h])]

theorem takeWhile_dropWhile_nil (p : Char → Bool) (l : List Char) :
    (l.dropWhile p).takeWhile p = [] := by
  induction l with
  | nil => rfl
  | cons c cs ih =>
    by_cases hc : p c = true
    · rw [List.dropWhile_cons_of_pos hc]
      exact ih
    · rw [List.dropWhile_cons_of_neg hc, List.takeWhile_cons_of_neg hc]

theorem takeWhile_substWord_nil (kw rep : List Char) {l : List Char}
    (h : l.takeWhile isWordChar = []) :
    (substWord kw rep l).takeWhile isWordChar = [] := by
  cases l with
  | nil => rfl
  | cons c cs =>
    have hc := head_neg_of_takeWhile_nil h
    rw [substWord_cons_nonword kw rep cs hc,
      List.takeWhile_cons_of_neg (by simp [hc])]

theorem takeWhile_substNot_nil {l : List Char}
    (h : l.takeWhile isWordChar = []) :
    (substNot l).takeWhile isWordChar = [] := by
  cases l with
  | nil => rfl
  | cons c cs =>
    have hc := head_neg_of_takeWhile_nil h
    rw [substNot_cons_nonword cs hc,
      List.takeWhile_cons_of_neg (by simp [hc])]

theorem headIsWs_substWord_boundary (kw rep : List Char) {l : List Char}
    (h : l.takeWhile isWordChar = []) :
    headIsWs (substWord kw rep l) = headIsWs l := by
  cases l with
  | nil => rfl
  | cons c cs =>
    rw [substWord_cons_nonword kw rep cs (head_neg_of_takeWhile_nil h)]
    rfl

theorem substWord_append_nonword (kw rep p t : List Char)
    (hp : ∀ c ∈ p, isWordChar c = false) :
    substWord kw rep (p ++ t) = p ++ substWord kw rep t := by
  induction p with
  | nil => rfl
  | cons c q ih =>
    rw [List.cons_append, substWord_cons_nonword kw rep _ (hp c (by simp)),
      ih (fun d hd => hp d (by simp [hd])), List.cons_append]

theorem substNot_append_nonword (p t : List Char)
    (hp : ∀ c ∈ p, isWordChar c = false) :
    substNot (p ++ t) = p ++ substNot t := by
  induction p with
  | nil => rfl
  | cons c q ih =>
    rw [List.cons_append, substNot_cons_nonword _ (hp c (by simp)),
      ih (fun d hd => hp d (by simp [hd])), List.cons_append]

theorem substWord_append_run (kw rep : List Char) (c : Char) (w t : List Char)
    (hc : isWordChar c = true) (hw : ∀ d ∈ w, isWordChar d = true)
    (ht : t.takeWhile isWordChar = []) :
    substWord kw rep ((c :: w) ++ t) =
      (if c :: w = kw then rep else c :: w) ++ substWord kw rep t := by
  rw [List.cons_append, substWord_run kw rep _ hc]
  have htake : (w ++ t).takeWhile isWordChar = w := by
    rw [List.takeWhile_append_of_pos hw, ht, List.append_nil]
  have hdrop : (w ++ t).dropWhile isWordChar = t := by
    rw [List.dropWhile_append_of_pos hw, dropWhile_eq_self_of_takeWhile_nil ht]
  rw [htake, hdrop]

theorem substNot_append_run (c : Char) (w t : List Char)
    (hc : isWordChar c = true) (hw : ∀ d ∈ w, isWordChar d = true)
    (ht : t.takeWhile isWordChar = []) :
    substNot ((c :: w) ++ t) =
      if (c :: w = ['n', 'o', 't'] && headIsWs t) = true
      then '!' :: substNot (t.dropWhile isWsChar)
      else (c :: w) ++ substNot t := by
  have htake : (w ++ t).takeWhile isWordChar = w := by
    rw [List.takeWhile_append_of_pos hw, ht, List.append_nil]
  have hdrop : (w ++ t).dropWhile isWordChar = t := by
    rw [List.dropWhile_append_of_pos hw, dropWhile_eq_self_of_takeWhile_nil ht]
  by_cases hfire : (c :: w = ['n', 'o', 't'] && headIsWs t) = true
  · rw [if_pos hfire, List.cons_append]
    simp only [Bool.and_eq_true, decide_eq_true_eq] at hfire
    rw [substNot_run_fire (w ++ t) hc (by rw [htake]; exact hfire.1)
      (by rw [hdrop]; exact hfire.2), hdrop]
  · rw [if_neg hfire, List.cons_append,
      substNot_run_pass (w ++ t) hc
        (by rw [htake, hdrop]; simpa using hfire),
      htake, hdrop]

theorem substWord_dropWs_fuel (kw rep : List Char) (hr : rep ≠ [])
    (hrws : ∀ c ∈ rep, isWsChar c = false) :
    ∀ (n : Nat) (l : List Char), l.length ≤ n →
      (substWord kw rep l).dropWhile isWsChar =
        substWord kw rep (l.dropWhile isWsChar) := by
  intro n
  induction n with
  | zero =>
    intro l h
    have hl : l = [] := List.eq_nil_of_length_eq_zero (Nat.le_zero.mp h)
    subst hl
    rfl
  | succ m ih =>
    intro l h
    cases l with
    | nil => rfl
    | cons c cs =>
      have hcs : cs.length ≤ m := by
        simp only [List.length_cons] at h
        omega
      by_cases hcw : isWordChar c = true
      · have hcns : isWsChar c = false := char_word_not_ws hcw
        rw [List.dropWhile_cons_of_neg (by simp [hcns]), substWord_run kw rep cs hcw]
        by_cases hk : c :: cs.takeWhile isWordChar = kw
        · rw [if_pos hk]
          cases rep with
          | nil => exact absurd rfl hr
          | cons r0 rs =>
            rw [List.cons_append,
              List.dropWhile_cons_of_neg (by simp [hrws r0 (by simp)])]
        · rw [if_neg hk, List.cons_append,
            List.dropWhile_cons_of_neg (by simp [hcns])]
      · have hcw2 : isWordChar c = false := by simpa using hcw
        by_cases hws : isWsChar c = true
        · rw [substWord_cons_nonword kw rep cs hcw2,
            List.dropWhile_cons_of_pos hws,
            List.dropWhile_cons_of_pos hws]
          exact ih cs hcs
        · rw [substWord_cons_nonword kw rep cs hcw2,
            List.dropWhile_cons_of_neg hws,
            List.dropWhile_cons_of_neg hws,
            substWord_cons_nonword kw rep cs hcw2]

theorem substWord_dropWs (kw rep : List Char) (hr : rep ≠ [])
    (hrws : ∀ c ∈ rep, isWsChar c = false) (l : List Char) :
    (substWord kw rep l).dropWhile isWsChar =
      substWord kw rep (l.dropWhile isWsChar) :=
  substWord_dropWs_fuel kw rep hr hrws l.length l (Nat.le_refl _)

theorem run_all_word {c : Char} (cs : List Char) (hc : isWordChar c = true) :
    ∀ d ∈ c :: cs.takeWhile isWordChar, isWordChar d = true := by
  intro d hd
  rcases List.mem_cons.mp hd with rfl | hd2
  · exact hc
  · exact List.mem_takeWhile_imp hd2

theorem substWord_comm_fuel (k1 r1 k2 r2 : List Char)
    (hne : k1 ≠ k2)
    (hr1 : ∀ c ∈ r1, isWordChar c = false)
    (hr2 : ∀ c ∈ r2, isWordChar c = false) :
    ∀ (n : Nat) (l : List Char), l.length ≤ n →
      substWord k1 r1 (substWord k2 r2 l) =
        substWord k2 r2 (substWord k1 r1 l) := by
  intro n
  induction n with
  | zero =>
    intro l h
    have hl : l = [] := List.eq_nil_of_length_eq_zero (Nat.le_zero.mp h)
    subst hl
    rfl
  | succ m ih =>
    intro l h
    cases l with
    | nil => rfl
    | cons c cs =>
      have hcs : cs.length ≤ m := by
        simp only [List.length_cons] at h
        omega
      by_cases hcw : isWordChar c = true
      · have hTb : (cs.dropWhile isWordChar).takeWhile isWordChar = [] :=
          takeWhile_dropWhile_nil isWordChar cs
        have hT : (cs.dropWhile isWordChar).length ≤ m :=
          le_trans (List.dropWhile_sublist isWordChar).length_le hcs
        have hIH := ih (cs.dropWhile isWordChar) hT
        have hb1 : (substWord k1 r1 (cs.dropWhile isWordChar)).takeWhile
            isWordChar = [] := takeWhile_substWord_nil k1 r1 hTb
        have hb2 : (substWord k2 r2 (cs.dropWhile isWordChar)).takeWhile
            isWordChar = [] := takeWhile_substWord_nil k2 r2 hTb
        have hRw := run_all_word cs hcw
        rw [substWord_run k2 r2 cs hcw, substWord_run k1 r1 cs hcw]
        by_cases h2 : c :: cs.takeWhile isWordChar = k2
        · have h1 : c :: cs.takeWhile isWordChar ≠ k1 := by
            rw [h2]
            exact fun hh => hne hh.symm
          rw [if_pos h2, if_neg h1,
            substWord_append_nonword k1 r1 r2 _ hr2,
            substWord_append_run k2 r2 c _ _ hcw
              (fun d hd => List.mem_takeWhile_imp hd) hb1,
            if_pos h2, hIH]
        · rw [if_neg h2,
            substWord_append_run k1 r1 c _ _ hcw
              (fun d hd => List.mem_takeWhile_imp hd) hb2]
          by_cases h1 : c :: cs.takeWhile isWordChar = k1
          · rw [if_pos h1,
              substWord_append_nonword k2 r2 r1 _ hr1, hIH]
          · rw [if_neg h1,
              substWord_append_run k2 r2 c _ _ hcw
                (fun d hd => List.mem_takeWhile_imp hd) hb1,
              if_neg h2, hIH]
      · have hcw2 : isWordChar c = false := by simpa using hcw
        rw [substWord_cons_nonword k2 r2 cs hcw2,
          substWord_cons_nonword k1 r1 _ hcw2,
          substWord_cons_nonword k1 r1 cs hcw2,
          substWord_cons_nonword k2 r2 _ hcw2,
          ih cs hcs]

theorem substWord_comm (k1 r1 k2 r2 : List Char)
    (hne : k1 ≠ k2)
    (hr1 : ∀ c ∈ r1, isWordChar c = false)
    (hr2 : ∀ c ∈ r2, isWordChar c = false) (l : List Char) :
    substWord k1 r1 (substWord k2 r2 l) =
      substWord k2 r2 (substWord k1 r1 l) :=
  substWord_comm_fuel k1 r1 k2 r2 hne hr1 hr2 l.length l (Nat.le_refl _)

theorem substNot_substWord_comm_fuel (kw rep : List Char)
    (hne : kw ≠ ['n', 'o', 't'])
    (hrep : ∀ c ∈ rep, isWordChar c = false)
    (hrne : rep ≠ [])
    (hrws : ∀ c ∈ rep, isWsChar c = false) :
    ∀ (n : Nat) (l : List Char), l.length ≤ n →
      substWord kw rep (substNot l) = substNot (substWord kw rep l) := by
  intro n
  induction n with
  | zero =>
    intro l h
    have hl : l = [] := List.eq_nil_of_length_eq_zero (Nat.le_zero.mp h)
    subst hl
    rfl
  | succ m ih =>
    intro l h
    cases l with
    | nil => rfl
    | cons c cs =>
      have hcs : cs.length ≤ m := by
        simp only [List.length_cons] at h
        omega
      by_cases hcw : isWordChar c = true
      · have hTb : (cs.dropWhile isWordChar).takeWhile isWordChar = [] :=
          takeWhile_dropWhile_nil isWordChar cs
        have hT : (cs.dropWhile isWordChar).length ≤ m :=
          le_trans (List.dropWhile_sublist isWordChar).length_le hcs
        have hbW : (substWord kw rep (cs.dropWhile isWordChar)).takeWhile
            isWordChar = [] := takeWhile_substWord_nil kw rep hTb
        have hbN : (substNot (cs.dropWhile isWordChar)).takeWhile
            isWordChar = [] := takeWhile_substNot_nil hTb
        rw [substWord_run kw rep cs hcw]
        cases hfire : (c :: cs.takeWhile isWordChar = ['n', 'o', 't'] &&
            headIsWs (cs.dropWhile isWordChar)) with
        | true =>
          have hpair := hfire
          simp only [Bool.and_eq_true, decide_eq_true_eq] at hpair
          obtain ⟨hknot, hws⟩ := hpair
          have hlen2 :
              ((cs.dropWhile isWordChar).dropWhile isWsChar).length ≤ m :=
            le_trans (List.dropWhile_sublist isWsChar).length_le hT
          have hRk : c :: cs.takeWhile isWordChar ≠ kw := by
            rw [hknot]
            exact fun hh => hne hh.symm
          rw [substNot_run_fire cs hcw hknot hws,
            substWord_cons_nonword kw rep _ (by decide),
            ih _ hlen2,
            ← substWord_dropWs kw rep hrne hrws (cs.dropWhile isWordChar),
            if_neg hRk,
            substNot_append_run c _ _ hcw
              (fun d hd => List.mem_takeWhile_imp hd) hbW,
            headIsWs_substWord_boundary kw rep hTb,
            if_pos (by simp [hknot, hws])]
        | false =>
          rw [substNot_run_pass cs hcw hfire,
            substWord_append_run kw rep c _ _ hcw
              (fun d hd => List.mem_takeWhile_imp hd) hbN,
            ih _ hT]
          by_cases hk : c :: cs.takeWhile isWordChar = kw
          · rw [if_pos hk, substNot_append_nonword rep _ hrep]
          · rw [if_neg hk,
              substNot_append_run c _ _ hcw
                (fun d hd => List.mem_takeWhile_imp hd) hbW,
              headIsWs_substWord_boundary kw rep hTb,
              if_neg (by rw [hfire]; exact Bool.false_ne_true)]
      · have hcw2 : isWordChar c = false := by simpa using hcw
        rw [substWord_cons_nonword kw rep cs hcw2,
          substNot_cons_nonword cs hcw2,
          substWord_cons_nonword kw rep (substNot cs) hcw2,
          substNot_cons_nonword (substWord kw rep cs) hcw2,
          ih cs hcs]

theorem substNot_substWord_comm (kw rep : List Char)
    (hne : kw ≠ ['n', 'o', 't'])
    (hrep : ∀ c ∈ rep, isWordChar c = false)
    (hrne : rep ≠ [])
    (hrws : ∀ c ∈ rep, isWsChar c = false) (l : List Char) :
    substWord kw rep (substNot l) = substNot (substWord kw rep l) :=
  substNot_substWord_comm_fuel kw rep hne hrep hrne hrws l.length l
    (Nat.le_refl _)

/-- C5: the condition rewriter substitutes the negated-equality phrase
"is not" into "!=" before the plain "is" into "==", so the phrase is not
double-substituted ("a is not b" becomes "a != b"); and on every input
on which the boolean-literal substitutions yes→true and no→false and the
is-not substitution are all vacuous, translateCond and translateExpr
produce the same output. (The second part is the amended form of the
claim: the two rewriters also differ on the boolean literals yes and no,
which only translateExpr rewrites, not only on the is-not phrase.) -/
theorem cond_rewriter_spec :
    translateCond "a is not b" = "a != b" ∧
    ∀ s : String,
      substWord ['y', 'e', 's'] ['t', 'r', 'u', 'e'] s.data = s.data →
      substWord ['n', 'o'] ['f', 'a', 'l', 's', 'e'] s.data = s.data →
      substIsNot s.data = s.data →
      translateCond s = translateExpr s := by
  constructor
  · rfl
  · intro s hyes hno hisnot
    unfold translateCond translateExpr
    rw [hisnot, hyes, hno]
    congr 1
    rw [substWord_comm ['i', 's'] ['=', '='] ['m', 'o', 'd'] ['%']
        (by decide) (by decide) (by decide),
      substNot_substWord_comm ['i', 's'] ['=', '=']
        (by decide) (by decide) (by decide) (by decide),
      substWord_comm ['i', 's'] ['=', '='] ['o', 'r'] ['|', '|']
        (by decide) (by decide) (by decide),
      substWord_comm ['i', 's'] ['=', '='] ['a', 'n', 'd'] ['&', '&']
        (by decide) (by decide) (by decide)]

/-- C5 counterexample: on "x is yes" the is-not substitution is vacuous —
the input has no negated-equality phrase — yet the two rewriters
disagree: translateCond keeps the boolean literal yes while
translateExpr rewrites it to true. -/
theorem cond_rewriter_cex :
    substIsNot "x is yes".data = "x is yes".data ∧
    translateCond "x is yes" = "x == yes" ∧
    translateExpr "x is yes" = "x == true" ∧
    translateCond "x is yes" ≠ translateExpr "x is yes" :=
  ⟨rfl, rfl, rfl, by decide⟩

/-- C5 witness: all three vacuity hypotheses hold for "a is b and c",
and the two rewriters agree on it. -/
theorem cond_rewriter_witness :
    substWord ['y', 'e', 's'] ['t', 'r', 'u', 'e'] "a is b and c".data
        = "a is b and c".data ∧
    substWord ['n', 'o'] ['f', 'a', 'l', 's', 'e'] "a is b and c".data
        = "a is b and c".data ∧
    substIsNot "a is b and c".data = "a is b and c".data ∧
    translateCond "a is b and c" = translateExpr "a is b and c" :=
  ⟨by decide, by decide, by decide,
    cond_rewriter_spec.2 "a is b and c" (by decide) (by decide) (by decide)⟩

theorem braceFree_subset {l l' : List Char} (hsub : ∀ c ∈ l', c ∈ l)
    (h : braceFree l = true) : braceFree l' = true := by
  simp only [braceFree, List.all_eq_true] at h ⊢
  exact fun c hc => h c (hsub c hc)

theorem braceFree_sublist {l l' : List Char} (hsub : List.Sublist l' l)
    (h : braceFree l = true) : braceFree l' = true :=
  braceFree_subset (fun c hc => hsub.subset hc) h

theorem braceFree_append {a b : List Char} (ha : braceFree a = true)
    (hb : braceFree b = true) : braceFree (a ++ b) = true := by
  simp only [braceFree, List.all_eq_true, List.mem_append] at ha hb ⊢
  rintro c (hc | hc)
  · exact ha c hc
  · exact hb c hc

theorem braceFree_cons {c : Char} {l : List Char} (hc : braceOK c = true)
    (h : braceFree l = true) : braceFree (c :: l) = true := by
  simp only [braceFree, List.all_cons, hc, Bool.true_and]
  exact h

theorem braceFree_takeWhile (p : Char → Bool) {l : List Char}
    (h : braceFree l = true) : braceFree (l.takeWhile p) = true :=
  braceFree_sublist (List.takeWhile_sublist p) h

theorem braceFree_dropWhile (p : Char → Bool) {l : List Char}
    (h : braceFree l = true) : braceFree (l.dropWhile p) = true :=
  braceFree_sublist (List.dropWhile_sublist p) h

theorem braceFree_drop (n : Nat) {l : List Char}
    (h : braceFree l = true) : braceFree (l.drop n) = true :=
  braceFree_sublist (List.drop_sublist n l) h

theorem braceFree_take (n : Nat) {l : List Char}
    (h : braceFree l = true) : braceFree (l.take n) = true :=
  braceFree_sublist (List.take_sublist n l) h

theorem braceFree_dropLast {l : List Char}
    (h : braceFree l = true) : braceFree l.dropLast = true :=
  braceFree_sublist (List.dropLast_sublist l) h

theorem braceFree_reverse {l : List Char}
    (h : braceFree l = true) : braceFree l.reverse = true :=
  braceFree_subset (fun c hc => List.mem_reverse.mp hc) h

theorem braceFree_trimChars {l : List Char}
    (h : braceFree l = true) : braceFree (trimChars l) = true :=
  braceFree_reverse (braceFree_dropWhile _
    (braceFree_reverse (braceFree_dropWhile _ h)))

theorem braceOK_getLastD :
    ∀ (l : List Char) (d : Char), braceOK d = true → braceFree l = true →
      braceOK (l.getLastD d) = true := by
  intro l
  induction l with
  | nil => intro d hd _; exact hd
  | cons a t ih =>
    intro d hd h
    have h2 := h
    simp only [braceFree, List.all_cons, Bool.and_eq_true] at h2
    rw [List.getLastD_cons]
    exact ih a h2.1 (by simpa [braceFree] using h2.2)

theorem countChar_append (c : Char) (a b : String) :
    countChar c (a ++ b) = countChar c a + countChar c b := by
  simp [countChar, String.data_append, List.filter_append]

theorem lineNet_str_append (a b : String) :
    lineNet (a ++ b) = lineNet a + lineNet b := by
  simp only [lineNet, countChar_append]
  push_cast
  ring

theorem lineNet_of_braceFree (s : String) (h : braceFree s.data = true) :
    lineNet s = 0 := by
  simp only [braceFree, List.all_eq_true, braceOK, Bool.not_eq_true',
    Bool.or_eq_false_iff] at h
  have h1 : countChar openBrace s = 0 := by
    simp only [countChar, List.length_eq_zero, List.filter_eq_nil_iff]
    intro c hc
    simp [(h c hc).1]
  have h2 : countChar closeBrace s = 0 := by
    simp only [countChar, List.length_eq_zero, List.filter_eq_nil_iff]
    intro c hc
    simp [(h c hc).2]
  simp [lineNet, h1, h2]

theorem lineNet_mk_of_braceFree (l : List Char) (h : braceFree l = true) :
    lineNet (String.mk l) = 0 :=
  lineNet_of_braceFree (String.mk l) h

theorem braceFree_cons_elim {c : Char} {l : List Char}
    (h : braceFree (c :: l) = true) :
    braceOK c = true ∧ braceFree l = true := by
  simp only [braceFree, List.all_cons, Bool.and_eq_true] at h
  exact h

theorem substWordF_bf (kw rep : List Char) (hrep : braceFree rep = true) :
    ∀ (n : Nat) (l : List Char), braceFree l = true →
      braceFree (substWordF kw rep n l) = true := by
  intro n
  induction n with
  | zero =>
    intro l hl
    cases l with
    | nil => exact hl
    | cons c cs => exact hl
  | succ m ih =>
    intro l hl
    cases l with
    | nil => exact hl
    | cons c cs =>
      obtain ⟨hc, hcs⟩ := braceFree_cons_elim hl
      simp only [substWordF]
      by_cases hw : isWordChar c = true
      · rw [if_pos hw]
        by_cases hk : c :: cs.takeWhile isWordChar = kw
        · rw [if_pos hk]
          exact braceFree_append hrep (ih _ (braceFree_dropWhile _ hcs))
        · rw [if_neg hk]
          exact braceFree_append
            (braceFree_cons hc (braceFree_takeWhile _ hcs))
            (ih _ (braceFree_dropWhile _ hcs))
      · rw [if_neg hw]
        exact braceFree_cons hc (ih _ hcs)

theorem substNotF_bf :
    ∀ (n : Nat) (l : List Char), braceFree l = true →
      braceFree (substNotF n l) = true := by
  intro n
  induction n with
  | zero =>
    intro l hl
    cases l with
    | nil => exact hl
    | cons c cs => exact hl
  | succ m ih =>
    intro l hl
    cases l with
    | nil => exact hl
    | cons c cs =>
      obtain ⟨hc, hcs⟩ := braceFree_cons_elim hl
      simp only [substNotF]
      by_cases hw : isWordChar c = true
      · rw [if_pos hw]
        by_cases hk : (c :: cs.takeWhile isWordChar = ['n', 'o', 't'] &&
            headIsWs (cs.dropWhile isWordChar)) = true
        · rw [if_pos hk]
          exact braceFree_cons (by decide)
            (ih _ (braceFree_dropWhile _ (braceFree_dropWhile _ hcs)))
        · rw [if_neg hk]
          exact braceFree_append
            (braceFree_cons hc (braceFree_takeWhile _ hcs))
            (ih _ (braceFree_dropWhile _ hcs))
      · rw [if_neg hw]
        exact braceFree_cons hc (ih _ hcs)

theorem substIsNotF_bf :
    ∀ (n : Nat) (l : List Char), braceFree l = true →
      braceFree (substIsNotF n l) = true := by
  intro n
  induction n with
  | zero =>
    intro l hl
    cases l with
    | nil => exact hl
    | cons c cs => exact hl
  | succ m ih =>
    intro l hl
    cases l with
    | nil => exact hl
    | cons c cs =>
      obtain ⟨hc, hcs⟩ := braceFree_cons_elim hl
      simp only [substIsNotF]
      by_cases hw : isWordChar c = true
      · rw [if_pos hw]
        by_cases hk : (c :: cs.takeWhile isWordChar = ['i', 's'] &&
            headIsWs (cs.dropWhile isWordChar) &&
            ((cs.dropWhile isWordChar).dropWhile isWsChar).takeWhile isWordChar
              = ['n', 'o', 't']) = true
        · rw [if_pos hk]
          exact braceFree_cons (by decide) (braceFree_cons (by decide)
            (ih _ (braceFree_dropWhile _
              (braceFree_dropWhile _ (braceFree_dropWhile _ hcs)))))
        · rw [if_neg hk]
          exact braceFree_append
            (braceFree_cons hc (braceFree_takeWhile _ hcs))
            (ih _ (braceFree_dropWhile _ hcs))
      · rw [if_neg hw]
        exact braceFree_cons hc (ih _ hcs)

theorem substWord_bf (kw rep l : List Char) (hrep : braceFree rep = true)
    (hl : braceFree l = true) : braceFree (substWord kw rep l) = true :=
  substWordF_bf kw rep hrep l.length l hl

theorem substNot_bf (l : List Char) (hl : braceFree l = true) :
    braceFree (substNot l) = true :=
  substNotF_bf l.length l hl

theorem substIsNot_bf (l : List Char) (hl : braceFree l = true) :
    braceFree (substIsNot l) = true :=
  substIsNotF_bf l.length l hl

theorem translateExpr_bf (s : String) (h : braceFree s.data = true) :
    braceFree (translateExpr s).data = true := by
  unfold translateExpr
  exact substWord_bf _ _ _ (by decide)
    (substWord_bf _ _ _ (by decide)
      (substNot_bf _
        (substWord_bf _ _ _ (by decide)
          (substWord_bf _ _ _ (by decide)
            (substWord_bf _ _ _ (by decide)
              (substWord_bf _ _ _ (by decide) h))))))

theorem translateCond_bf (s : String) (h : braceFree s.data = true) :
    braceFree (translateCond s).data = true := by
  unfold translateCond
  exact substWord_bf _ _ _ (by decide)
    (substNot_bf _
      (substWord_bf _ _ _ (by decide)
        (substWord_bf _ _ _ (by decide)
          (substWord_bf _ _ _ (by decide)
            (substIsNot_bf _ h)))))

theorem replAndSepF_bf :
    ∀ (n : Nat) (l : List Char), braceFree l = true →
      braceFree (replAndSepF n l) = true := by
  intro n
  induction n with
  | zero =>
    intro l hl
    cases l with
    | nil => exact hl
    | cons c cs => exact hl
  | succ m ih =>
    intro l hl
    cases l with
    | nil => exact hl
    | cons c cs =>
      obtain ⟨hc, hcs⟩ := braceFree_cons_elim hl
      have hdw : braceFree (cs.dropWhile isWsChar) = true :=
        braceFree_dropWhile _ hcs
      simp only [replAndSepF]
      by_cases hw : isWsChar c = true
      · rw [if_pos hw]
        split
      
        · rename_i d ds heq
          rw [heq] at hdw
          obtain ⟨_, hdw⟩ := braceFree_cons_elim hdw
          obtain ⟨_, hdw⟩ := braceFree_cons_elim hdw
          obtain ⟨_, hdw⟩ := braceFree_cons_elim hdw
          obtain ⟨hd, hds⟩ := braceFree_cons_elim hdw
          by_cases hwd : isWsChar d = true
          · rw [if_pos hwd]
            exact braceFree_cons (by decide) (braceFree_cons (by decide)
              (ih _ (braceFree_dropWhile _ hds)))
          · rw [if_neg hwd]
            exact braceFree_append
              (braceFree_cons hc (braceFree_takeWhile _ hcs))
              (ih _ (braceFree_dropWhile _ hcs))
        · exact braceFree_append
            (braceFree_cons hc (braceFree_takeWhile _ hcs))
            (ih _ (braceFree_dropWhile _ hcs))
      · rw [if_neg hw]
        exact braceFree_cons hc (ih _ hcs)

theorem replAndSep_bf (l : List Char) (h : braceFree l = true) :
    braceFree (replAndSep l) = true :=
  replAndSepF_bf l.length l h

theorem splitCommaWsF_bf :
    ∀ (n : Nat) (l : List Char), braceFree l = true →
      ∀ p ∈ splitCommaWsF n l, braceFree p = true := by
  intro n
  induction n with
  | zero =>
    intro l hl p hp
    cases l with
    | nil =>
      simp only [splitCommaWsF, List.mem_singleton] at hp
      subst hp
      rfl
    | cons c cs =>
      simp only [splitCommaWsF, List.mem_singleton] at hp
      subst hp
      exact hl
  | succ m ih =>
    intro l hl p hp
    cases l with
    | nil =>
      simp only [splitCommaWsF, List.mem_singleton] at hp
      subst hp
      rfl
    | cons c cs =>
      obtain ⟨hc, hcs⟩ := braceFree_cons_elim hl
      simp only [splitCommaWsF] at hp
      by_cases hcomma : (c == ',') = true
      · rw [if_pos hcomma] at hp
        rcases List.mem_cons.mp hp with rfl | hp2
        · rfl
        · exact ih _ (braceFree_dropWhile _ hcs) p hp2
      · rw [if_neg hcomma] at hp
        split at hp
        · rename_i h t heq
          rcases List.mem_cons.mp hp with rfl | hp2
          · exact braceFree_cons hc
              (ih cs hcs h (by rw [heq]; exact List.mem_cons_self h t))
          · exact ih cs hcs p (by rw [heq]; exact List.mem_cons_of_mem h hp2)
        · simp only [List.mem_singleton] at hp
          subst hp
          exact braceFree_cons hc rfl

theorem splitCommaWs_bf (l : List Char) (h : braceFree l = true) :
    ∀ p ∈ splitCommaWs l, braceFree p = true :=
  splitCommaWsF_bf l.length l h

theorem braceFree_str_append (a b : String) (ha : braceFree a.data = true)
    (hb : braceFree b.data = true) : braceFree (a ++ b).data = true := by
  rw [String.data_append]
  exact braceFree_append ha hb

theorem braceFree_intercalate_go :
    ∀ (xs : List String) (acc sep : String), braceFree acc.data = true →
      braceFree sep.data = true → (∀ x ∈ xs, braceFree x.data = true) →
      braceFree (String.intercalate.go acc sep xs).data = true := by
  intro xs
  induction xs with
  | nil =>
    intro acc sep ha _ _
    simpa [String.intercalate.go] using ha
  | cons x t ih =>
    intro acc sep ha hs hall
    rw [show String.intercalate.go acc sep (x :: t)
        = String.intercalate.go (acc ++ sep ++ x) sep t from by
      simp [String.intercalate.go]]
    exact ih _ sep
      (braceFree_str_append _ _ (braceFree_str_append _ _ ha hs)
        (hall x (by simp)))
      hs (fun y hy => hall y (by simp [hy]))

theorem braceFree_intercalate (sep : String) (xs : List String)
    (hs : braceFree sep.data = true)
    (hall : ∀ x ∈ xs, braceFree x.data = true) :
    braceFree (String.intercalate sep xs).data = true := by
  cases xs with
  | nil => rfl
  | cons x t =>
    exact braceFree_intercalate_go t x sep (hall x (by simp)) hs
      (fun y hy => hall y (by simp [hy]))

theorem autoArgs_bf (args : List Char) (h : braceFree args = true) :
    braceFree (autoArgs args).data = true := by
  unfold autoArgs
  apply braceFree_intercalate _ _ (by decide)
  intro x hx
  simp only [List.mem_map] at hx
  obtain ⟨a, ha, rfl⟩ := hx
  exact braceFree_str_append _ _ (by decide)
    (braceFree_trimChars (splitCommaWs_bf _ (replAndSep_bf _ h) a ha))

end FlowChat
